import Mathlib

/-!
Verification development for the rentneon bill synchronization engine.

The definitions below are shallow embeddings of the repository's code:

  * the in-memory cache `BillCache` (src/unnamed/part_001),
  * the retry wrapper `RetryableQuery` and `queryWithTimeout`
    (src/src/services/supabaseService.ts, lines 94-134),
  * the remote store and the PL/pgSQL procedures `save_bill_complete`
    (src/database-performance-optimization.sql, lines 154-348) and
    `get_bill_with_details` (src/unnamed/part_000),
  * the service-layer reads `getMonthlyBill`, `getPreviousMonthBill`,
    and `getBillWithDetails` with its decomposed fallback
    (src/src/services/supabaseService.ts, lines 390-665).

JavaScript numbers are modelled as `Int`, UUIDs as `Nat` drawn from a
per-store fresh counter, timestamps as `Nat` milliseconds, and fallible
asynchronous operations as `Except String` values.
-/

namespace RentSync

/-! ### Cache manager (class BillCache, src/unnamed/part_001)

The cache logic never inspects the fields of the `MonthData` payload it
stores, so the embedding is polymorphic in the payload type `alpha`.
`Date.now()` is passed in explicitly as `now`. -/

/-- CACHE_TTL = 15 * 60 * 1000 (part_001 line 48). -/
def CACHE_TTL : Nat := 15 * 60 * 1000

/-- One cache slot: the stored data, the write timestamp and the stale
flag (interface CacheEntry, part_001 lines 40-44). -/
structure CacheEntry (alpha : Type) where
  data : alpha
  timestamp : Nat
  isStale : Bool
deriving DecidableEq, Repr

/-- The private Map of BillCache, modelled as an association list keyed
by the string cache key. -/
structure BillCache (alpha : Type) where
  entries : List (String × CacheEntry alpha)
deriving DecidableEq, Repr

/-- Map.get on the association list. -/
def mapGet {alpha : Type} (m : List (String × CacheEntry alpha)) (k : String) :
    Option (CacheEntry alpha) :=
  match m.find? (fun p => p.1 == k) with
  | some p => some p.2
  | none => none

/-- Map.set: replace the value in place when the key is present,
otherwise append the binding (JavaScript Map semantics). -/
def mapSet {alpha : Type} (m : List (String × CacheEntry alpha)) (k : String)
    (v : CacheEntry alpha) : List (String × CacheEntry alpha) :=
  if m.any (fun p => p.1 == k) then
    m.map (fun p => if p.1 == k then (k, v) else p)
  else m ++ [(k, v)]

/-- getCacheKey (part_001 lines 53-55): the template string
renterId-year-month. -/
def getCacheKey (renterId month year : Int) : String :=
  toString renterId ++ "-" ++ toString year ++ "-" ++ toString month

/-- BillCache.get (part_001 lines 62-79): absent keys return null; an
entry older than the TTL is flagged stale in place and its data is still
returned. Returns the data together with the possibly updated cache. -/
def BillCache.get {alpha : Type} (c : BillCache alpha) (now : Nat)
    (renterId month year : Int) : Option alpha × BillCache alpha :=
  let key := getCacheKey renterId month year
  match mapGet c.entries key with
  | none => (none, c)
  | some entry =>
    if now - entry.timestamp > CACHE_TTL then
      (some entry.data, ⟨mapSet c.entries key { entry with isStale := true }⟩)
    else
      (some entry.data, c)

/-- BillCache.isStale (part_001 lines 84-91): false when the key is not
cached, otherwise whether the entry is older than the TTL. -/
def BillCache.isStale {alpha : Type} (c : BillCache alpha) (now : Nat)
    (renterId month year : Int) : Bool :=
  match mapGet c.entries (getCacheKey renterId month year) with
  | none => false
  | some entry => decide (now - entry.timestamp > CACHE_TTL)

/-- BillCache.set (part_001 lines 96-103). -/
def BillCache.set {alpha : Type} (c : BillCache alpha) (now : Nat)
    (renterId month year : Int) (data : alpha) : BillCache alpha :=
  ⟨mapSet c.entries (getCacheKey renterId month year) ⟨data, now, false⟩⟩

/-- BillCache.invalidate (part_001 lines 108-111): hard removal. -/
def BillCache.invalidate {alpha : Type} (c : BillCache alpha)
    (renterId month year : Int) : BillCache alpha :=
  ⟨c.entries.filter (fun p => !(p.1 == getCacheKey renterId month year))⟩

/-- mapGet after mapSet at the same key yields the new value. -/
theorem mapGet_mapSet {alpha : Type} (m : List (String × CacheEntry alpha))
    (k : String) (v : CacheEntry alpha) : mapGet (mapSet m k v) k = some v := by
  unfold mapSet mapGet
  by_cases h : m.any (fun p => p.1 == k) = true
  · simp only [h, if_pos]
    induction m with
    | nil => simp at h
    | cons p ps ih =>
      simp only [List.map_cons, List.find?]
      by_cases hp : p.1 == k
      · simp [hp]
      · simp only [hp, if_neg, Bool.false_eq_true, not_false_iff]
        simp only [List.any_cons, hp, Bool.false_or] at h
        simpa [hp] using ih h
  · simp only [h, if_neg, Bool.false_eq_true, not_false_iff]
    have hall : ∀ p ∈ m, ¬(p.1 == k) = true := by
      intro p hp
      intro hcontra
      exact h (List.any_eq_true.mpr ⟨p, hp, hcontra⟩)
    rw [List.find?_append]
    have : m.find? (fun p => p.1 == k) = none := by
      rw [List.find?_eq_none]
      exact hall
    simp [this]

/-- Claim C10: a key with no cache entry is reported as not stale. -/
theorem isStale_of_absent {alpha : Type} (c : BillCache alpha) (now : Nat)
    (renterId month year : Int)
    (h : mapGet c.entries (getCacheKey renterId month year) = none) :
    c.isStale now renterId month year = false := by
  unfold BillCache.isStale
  rw [h]

/-- Witness for C10: the empty cache reports every key as not stale. -/
theorem isStale_of_absent_witness :
    mapGet (BillCache.mk [] : BillCache Nat).entries (getCacheKey 7 3 2025) = none ∧
    (BillCache.mk [] : BillCache Nat).isStale 0 7 3 2025 = false :=
  ⟨by decide, isStale_of_absent (BillCache.mk [] : BillCache Nat) 0 7 3 2025 (by decide)⟩

/-- Claim C8: an entry written more than CACHE_TTL ago is reported stale,
yet get still returns its data and only rewrites the entry with the stale
flag set, leaving data and timestamp in place. -/
theorem stale_entry_not_evicted {alpha : Type} (c : BillCache alpha) (now : Nat)
    (renterId month year : Int) (e : CacheEntry alpha)
    (hfound : mapGet c.entries (getCacheKey renterId month year) = some e)
    (hold : now - e.timestamp > CACHE_TTL) :
    c.isStale now renterId month year = true ∧
    (c.get now renterId month year).1 = some e.data ∧
    mapGet (c.get now renterId month year).2.entries
        (getCacheKey renterId month year) =
      some ⟨e.data, e.timestamp, true⟩ := by
  refine ⟨?_, ?_, ?_⟩
  · unfold BillCache.isStale
    rw [hfound]
    exact decide_eq_true hold
  · unfold BillCache.get
    simp only [hfound, if_pos hold]
  · unfold BillCache.get
    simp only [hfound, if_pos hold]
    exact mapGet_mapSet c.entries (getCacheKey renterId month year)
      { e with isStale := true }

/-- Witness for C8 at a concrete cache: key (1, 3, 2025) written at time 0,
read at time CACHE_TTL + 1. -/
theorem stale_entry_not_evicted_witness :
    mapGet ([(getCacheKey 1 3 2025, ⟨42, 0, false⟩)] : List (String × CacheEntry Nat))
        (getCacheKey 1 3 2025) = some ⟨42, 0, false⟩ ∧
    (900001 - 0 > CACHE_TTL) ∧
    (BillCache.mk ([(getCacheKey 1 3 2025, ⟨42, 0, false⟩)] :
        List (String × CacheEntry Nat))).isStale 900001 1 3 2025 = true ∧
    ((BillCache.mk ([(getCacheKey 1 3 2025, ⟨42, 0, false⟩)] :
        List (String × CacheEntry Nat))).get 900001 1 3 2025).1 = some 42 ∧
    mapGet ((BillCache.mk ([(getCacheKey 1 3 2025, ⟨42, 0, false⟩)] :
        List (String × CacheEntry Nat))).get 900001 1 3 2025).2.entries
        (getCacheKey 1 3 2025) = some ⟨42, 0, true⟩ := by
  refine ⟨by decide, by decide, ?_⟩
  exact stale_entry_not_evicted
    (BillCache.mk ([(getCacheKey 1 3 2025, ⟨42, 0, false⟩)] :
      List (String × CacheEntry Nat)))
    900001 1 3 2025 ⟨42, 0, false⟩ (by decide) (by decide)

/-! ### Preloader (BillCache.preload / loadIfNotCached, part_001 lines 123-246)

loadIfNotCached first consults the cache through get (whose truthy result
skips the load), then runs the remote load; its try/catch swallows any
failure and caches nothing in that case. The body of the load (part_001
lines 158-238, building a MonthData from getMonthlyBill and either the
child lists or the carry-forward readings) is abstracted as the oracle
fetch, returning either the built MonthData or the thrown error. The
monthlyRent argument of the source only feeds that body, so it is part of
the oracle. Each call also reports the list of keys for which a remote
load was started, so that theorems can speak about what was fetched. -/

/-- loadIfNotCached (part_001 lines 147-246). -/
def BillCache.loadIfNotCached {alpha : Type}
    (fetch : Int → Int → Int → Except String alpha) (c : BillCache alpha)
    (now : Nat) (renterId month year : Int) : BillCache alpha × List String :=
  let g := c.get now renterId month year
  match g.1 with
  | some _ => (g.2, [])
  | none =>
    match fetch renterId month year with
    | Except.error _ => (g.2, [getCacheKey renterId month year])
    | Except.ok d => (g.2.set now renterId month year d,
        [getCacheKey renterId month year])

/-- The previous and next (month, year) targets computed by preload
(part_001 lines 129-135). -/
def preloadTargets (month year : Int) : (Int × Int) × (Int × Int) :=
  ((if month = 1 then 12 else month - 1, if month = 1 then year - 1 else year),
   (if month = 12 then 1 else month + 1, if month = 12 then year + 1 else year))

/-- BillCache.preload (part_001 lines 123-142): load the previous and the
next month if not cached. The source runs the two loads through
Promise.all with a catch that swallows a joint failure; the two loads
target distinct keys and each already swallows its own errors, so the
sequential composition is the faithful state-level model. -/
def BillCache.preload {alpha : Type}
    (fetch : Int → Int → Int → Except String alpha) (c : BillCache alpha)
    (now : Nat) (renterId month year : Int) : BillCache alpha × List String :=
  let t := preloadTargets month year
  let p := c.loadIfNotCached fetch now renterId t.1.1 t.1.2
  let q := p.1.loadIfNotCached fetch now renterId t.2.1 t.2.2
  (q.1, p.2 ++ q.2)

/-- mapGet is a some exactly when some binding carries the key. -/
theorem mapGet_isSome_iff {alpha : Type} (m : List (String × CacheEntry alpha))
    (k : String) :
    (mapGet m k).isSome = true ↔ ∃ p ∈ m, (p.1 == k) = true := by
  unfold mapGet
  cases hf : m.find? (fun p => p.1 == k) with
  | none =>
    simp only [Option.isSome_none, Bool.false_eq_true, false_iff]
    rw [List.find?_eq_none] at hf
    rintro ⟨p, hp, hpk⟩
    exact hf p hp hpk
  | some p =>
    simp only [Option.isSome_some, true_iff]
    refine ⟨p, List.mem_of_find?_eq_some hf, ?_⟩
    have hpk := List.find?_some hf
    simpa using hpk

/-- mapSet never removes a key: the keys of the updated list are the old
keys, possibly extended with the written one. -/
theorem mapGet_mapSet_isSome {alpha : Type} (m : List (String × CacheEntry alpha))
    (k2 : String) (v : CacheEntry alpha) (k : String)
    (h : (mapGet m k).isSome = true) :
    (mapGet (mapSet m k2 v) k).isSome = true := by
  rw [mapGet_isSome_iff] at h ⊢
  obtain ⟨p, hp, hpk⟩ := h
  unfold mapSet
  by_cases hany : m.any (fun q => q.1 == k2) = true
  · simp only [hany, if_pos]
    by_cases hpk2 : (p.1 == k2) = true
    · refine ⟨(k2, v), List.mem_map.mpr ⟨p, hp, by simp [hpk2]⟩, ?_⟩
      have h1 : p.1 = k := by simpa using hpk
      have h2 : p.1 = k2 := by simpa using hpk2
      simp [← h2, h1]
    · exact ⟨p, List.mem_map.mpr ⟨p, hp, by simp [hpk2]⟩, hpk⟩
  · simp only [hany, Bool.false_eq_true, if_neg, not_false_iff]
    exact ⟨p, List.mem_append.mpr (Or.inl hp), hpk⟩

/-- The data component returned by get is the data of the entry found
under the key, independently of staleness. -/
theorem get_fst {alpha : Type} (c : BillCache alpha) (now : Nat)
    (renterId month year : Int) :
    (c.get now renterId month year).1 =
      (mapGet c.entries (getCacheKey renterId month year)).map (fun e => e.data) := by
  cases hfound : mapGet c.entries (getCacheKey renterId month year) with
  | none => simp [BillCache.get, hfound]
  | some e =>
    by_cases hst : now - e.timestamp > CACHE_TTL
    · simp [BillCache.get, hfound, hst]
    · simp [BillCache.get, hfound, hst]

/-- When the key is absent, get leaves the cache untouched. -/
theorem get_snd_of_none {alpha : Type} (c : BillCache alpha) (now : Nat)
    (renterId month year : Int)
    (h : mapGet c.entries (getCacheKey renterId month year) = none) :
    (c.get now renterId month year).2 = c := by
  simp [BillCache.get, h]

/-- get never removes a key (it only flags staleness in place). -/
theorem mapGet_get_isSome {alpha : Type} (c : BillCache alpha) (now : Nat)
    (renterId month year : Int) (k : String)
    (h : (mapGet c.entries k).isSome = true) :
    (mapGet (c.get now renterId month year).2.entries k).isSome = true := by
  cases hfound : mapGet c.entries (getCacheKey renterId month year) with
  | none => rw [get_snd_of_none c now renterId month year hfound]; exact h
  | some e =>
    by_cases hst : now - e.timestamp > CACHE_TTL
    · have hsnd : (c.get now renterId month year).2 =
          ⟨mapSet c.entries (getCacheKey renterId month year)
            { e with isStale := true }⟩ := by
        simp [BillCache.get, hfound, hst]
      rw [hsnd]
      exact mapGet_mapSet_isSome c.entries _ _ k h
    · have hsnd : (c.get now renterId month year).2 = c := by
        simp [BillCache.get, hfound, hst]
      rw [hsnd]; exact h

/-- set never removes a key. -/
theorem mapGet_set_isSome {alpha : Type} (c : BillCache alpha) (now : Nat)
    (renterId month year : Int) (d : alpha) (k : String)
    (h : (mapGet c.entries k).isSome = true) :
    (mapGet (c.set now renterId month year d).entries k).isSome = true :=
  mapGet_mapSet_isSome c.entries _ _ k h

/-- Every key reported as fetched by loadIfNotCached is the key of the
requested month. -/
theorem loadIfNotCached_snd_sub {alpha : Type}
    (fetch : Int → Int → Int → Except String alpha) (c : BillCache alpha)
    (now : Nat) (renterId month year : Int) :
    ∀ k ∈ (c.loadIfNotCached fetch now renterId month year).2,
      k = getCacheKey renterId month year := by
  intro k hk
  unfold BillCache.loadIfNotCached at hk
  cases hg : (c.get now renterId month year).1 with
  | some d => simp only [hg] at hk; simp at hk
  | none =>
    simp only [hg] at hk
    cases hf : fetch renterId month year with
    | error e => simp only [hf] at hk; simpa using hk
    | ok d => simp only [hf] at hk; simpa using hk

/-- A key already present in the cache makes loadIfNotCached skip the
remote load: nothing is fetched. -/
theorem loadIfNotCached_cached_skips {alpha : Type}
    (fetch : Int → Int → Int → Except String alpha) (c : BillCache alpha)
    (now : Nat) (renterId month year : Int)
    (h : (mapGet c.entries (getCacheKey renterId month year)).isSome = true) :
    (c.loadIfNotCached fetch now renterId month year).2 = [] := by
  cases hfound : mapGet c.entries (getCacheKey renterId month year) with
  | none => rw [hfound] at h; simp at h
  | some e =>
    have hg : (c.get now renterId month year).1 = some e.data := by
      rw [get_fst, hfound]; rfl
    unfold BillCache.loadIfNotCached
    simp only [hg]

/-- loadIfNotCached never removes a key. -/
theorem loadIfNotCached_isSome {alpha : Type}
    (fetch : Int → Int → Int → Except String alpha) (c : BillCache alpha)
    (now : Nat) (renterId month year : Int) (k : String)
    (h : (mapGet c.entries k).isSome = true) :
    (mapGet (c.loadIfNotCached fetch now renterId month year).1.entries k).isSome
      = true := by
  have h1 := mapGet_get_isSome c now renterId month year k h
  unfold BillCache.loadIfNotCached
  cases hg : (c.get now renterId month year).1 with
  | some d => simpa only [hg] using h1
  | none =>
    simp only [hg]
    cases hf : fetch renterId month year with
    | error e => exact h1
    | ok d =>
      exact mapGet_set_isSome (c.get now renterId month year).2 now renterId
        month year d k h1

/-- A failing load of an uncached key is swallowed: loadIfNotCached
returns the unchanged cache together with the attempted key, and raises
nothing. -/
theorem loadIfNotCached_swallows {alpha : Type}
    (fetch : Int → Int → Int → Except String alpha) (c : BillCache alpha)
    (now : Nat) (renterId month year : Int) (e : String)
    (hf : fetch renterId month year = Except.error e)
    (hnone : mapGet c.entries (getCacheKey renterId month year) = none) :
    c.loadIfNotCached fetch now renterId month year =
      (c, [getCacheKey renterId month year]) := by
  have hg : (c.get now renterId month year).1 = none := by
    rw [get_fst, hnone]; rfl
  unfold BillCache.loadIfNotCached
  simp only [hg, hf, get_snd_of_none c now renterId month year hnone]

/-- Claim C7: preload targets exactly the two adjacent keys with correct
rollover at both year boundaries, so the targeted months always lie in
1..12 (never 0 or 13); a target already present in the cache is not
fetched; only the two target keys are ever fetched; and a failing load of
an uncached target is swallowed, leaving the cache unchanged with no
error raised. -/
theorem preload_spec {alpha : Type}
    (fetch : Int → Int → Int → Except String alpha) (c : BillCache alpha)
    (now : Nat) (renterId month year : Int)
    (h1 : 1 ≤ month) (h2 : month ≤ 12) :
    (1 ≤ (preloadTargets month year).1.1 ∧ (preloadTargets month year).1.1 ≤ 12 ∧
     1 ≤ (preloadTargets month year).2.1 ∧ (preloadTargets month year).2.1 ≤ 12) ∧
    (month = 1 → (preloadTargets month year).1 = (12, year - 1)) ∧
    (1 < month → (preloadTargets month year).1 = (month - 1, year)) ∧
    (month = 12 → (preloadTargets month year).2 = (1, year + 1)) ∧
    (month < 12 → (preloadTargets month year).2 = (month + 1, year)) ∧
    (∀ k ∈ (c.preload fetch now renterId month year).2,
      k = getCacheKey renterId (preloadTargets month year).1.1
            (preloadTargets month year).1.2 ∨
      k = getCacheKey renterId (preloadTargets month year).2.1
            (preloadTargets month year).2.2) ∧
    ((mapGet c.entries (getCacheKey renterId (preloadTargets month year).1.1
          (preloadTargets month year).1.2)).isSome = true →
      getCacheKey renterId (preloadTargets month year).1.1
          (preloadTargets month year).1.2 ∉
        (c.preload fetch now renterId month year).2) ∧
    ((mapGet c.entries (getCacheKey renterId (preloadTargets month year).2.1
          (preloadTargets month year).2.2)).isSome = true →
      getCacheKey renterId (preloadTargets month year).2.1
          (preloadTargets month year).2.2 ∉
        (c.preload fetch now renterId month year).2) ∧
    (∀ (c0 : BillCache alpha) (m0 y0 : Int) (e : String),
      fetch renterId m0 y0 = Except.error e →
      mapGet c0.entries (getCacheKey renterId m0 y0) = none →
      c0.loadIfNotCached fetch now renterId m0 y0 =
        (c0, [getCacheKey renterId m0 y0])) := by
  refine ⟨?_, ?_, ?_, ?_, ?_, ?_, ?_, ?_, ?_⟩
  · refine ⟨?_, ?_, ?_, ?_⟩ <;> simp only [preloadTargets] <;> split <;> omega
  · intro hm; simp [preloadTargets, hm]
  · intro hm
    have hne : month ≠ 1 := by omega
    simp [preloadTargets, hne]
  · intro hm; simp [preloadTargets, hm]
  · intro hm
    have hne : month ≠ 12 := by omega
    simp [preloadTargets, hne]
  · intro k hk
    unfold BillCache.preload at hk
    simp only [List.mem_append] at hk
    rcases hk with hk | hk
    · exact Or.inl (loadIfNotCached_snd_sub fetch c now renterId _ _ k hk)
    · exact Or.inr (loadIfNotCached_snd_sub fetch _ now renterId _ _ k hk)
  · intro hsome hmem
    unfold BillCache.preload at hmem
    simp only [List.mem_append] at hmem
    have hp2 := loadIfNotCached_cached_skips fetch c now renterId
      (preloadTargets month year).1.1 (preloadTargets month year).1.2 hsome
    rcases hmem with hmem | hmem
    · rw [hp2] at hmem; simp at hmem
    · have hkey := loadIfNotCached_snd_sub fetch _ now renterId
        (preloadTargets month year).2.1 (preloadTargets month year).2.2 _ hmem
      have hsome2 : (mapGet c.entries (getCacheKey renterId
          (preloadTargets month year).2.1 (preloadTargets month year).2.2)).isSome
          = true := by
        rw [← hkey]; exact hsome
      have h1s := loadIfNotCached_isSome fetch c now renterId
        (preloadTargets month year).1.1 (preloadTargets month year).1.2 _ hsome2
      rw [loadIfNotCached_cached_skips fetch _ now renterId
        (preloadTargets month year).2.1 (preloadTargets month year).2.2 h1s]
        at hmem
      simp at hmem
  · intro hsome hmem
    unfold BillCache.preload at hmem
    simp only [List.mem_append] at hmem
    rcases hmem with hmem | hmem
    · have hkey := loadIfNotCached_snd_sub fetch c now renterId
        (preloadTargets month year).1.1 (preloadTargets month year).1.2 _ hmem
      have hsome1 : (mapGet c.entries (getCacheKey renterId
          (preloadTargets month year).1.1 (preloadTargets month year).1.2)).isSome
          = true := by
        rw [← hkey]; exact hsome
      rw [loadIfNotCached_cached_skips fetch c now renterId
        (preloadTargets month year).1.1 (preloadTargets month year).1.2 hsome1]
        at hmem
      simp at hmem
    · have h1s := loadIfNotCached_isSome fetch c now renterId
        (preloadTargets month year).1.1 (preloadTargets month year).1.2 _ hsome
      rw [loadIfNotCached_cached_skips fetch _ now renterId
        (preloadTargets month year).2.1 (preloadTargets month year).2.2 h1s]
        at hmem
      simp at hmem
  · intro c0 m0 y0 e hf hnone
    exact loadIfNotCached_swallows fetch c0 now renterId m0 y0 e hf hnone

/-- Witness for C7 at (month 1, year 2025) with a cache already holding the
previous target: the rollover keys are correct and the cached target is
not fetched. -/
theorem preload_spec_witness :
    ((1 : Int) ≤ 1 ∧ (1 : Int) ≤ 12) ∧
    (preloadTargets 1 2025).1 = (12, 2025 - 1) ∧
    (preloadTargets 1 2025).2 = (1 + 1, 2025) ∧
    getCacheKey 3 (preloadTargets 1 2025).1.1 (preloadTargets 1 2025).1.2 ∉
      ((BillCache.mk ([(getCacheKey 3 12 2024, ⟨5, 0, false⟩)] :
          List (String × CacheEntry Nat))).preload
        (fun _ _ _ => Except.ok 9) 0 3 1 2025).2 := by
  have h := preload_spec (fun _ _ _ => (Except.ok 9 : Except String Nat))
    (BillCache.mk ([(getCacheKey 3 12 2024, ⟨5, 0, false⟩)] :
      List (String × CacheEntry Nat))) 0 3 1 2025
    (by decide) (by decide)
  refine ⟨by decide, h.2.1 rfl, h.2.2.2.2.1 (by decide), ?_⟩
  exact h.2.2.2.2.2.2.1 (by decide)

/-! ### Retry wrapper (class RetryableQuery, supabaseService.ts lines 94-121)

The wrapped asynchronous operation is modelled as a function from the
attempt index (0-based) to the outcome of that invocation. The execute
loop runs attempts 0..maxRetries, returns the first success, sleeps
baseDelay * 2 ^ attempt between failed attempts (the sleep has no
observable effect besides time, so it is not part of the state), and
after the loop throws the wrapped message built from the operation name
and the last error. The model returns the outcome together with the
number of invocations performed. -/

/-- private maxRetries = 2 (line 95). -/
def maxRetries : Nat := 2

/-- private baseDelay = 1000 (line 96). -/
def baseDelay : Nat := 1000

/-- The for-loop of execute: run the attempt with index attempt; stop on
success or when no attempts remain, otherwise recurse; the error kept is
the one of the last attempt run, mirroring the lastError variable. -/
def runAttempts {alpha : Type} (queryFn : Nat → Except String alpha) :
    Nat → Nat → Except String alpha × Nat
  | _, 0 => (Except.error "", 0)
  | attempt, remaining + 1 =>
    match queryFn attempt with
    | Except.ok a => (Except.ok a, 1)
    | Except.error e =>
      if remaining = 0 then (Except.error e, 1)
      else
        let p := runAttempts queryFn (attempt + 1) remaining
        (p.1, p.2 + 1)

/-- RetryableQuery.execute (lines 98-120): up to maxRetries + 1 attempts;
on exhaustion the error is wrapped with the operation name and the last
underlying message. -/
def RetryableQuery.execute {alpha : Type} (queryFn : Nat → Except String alpha)
    (context : String) : Except String alpha × Nat :=
  let p := runAttempts queryFn 0 (maxRetries + 1)
  match p.1 with
  | Except.ok a => (Except.ok a, p.2)
  | Except.error e =>
    (Except.error (context ++ " failed after " ++ toString maxRetries ++
      " retries: " ++ e), p.2)

/-- runAttempts never runs more attempts than it was given. -/
theorem runAttempts_count_le {alpha : Type} (queryFn : Nat → Except String alpha)
    (attempt remaining : Nat) :
    (runAttempts queryFn attempt remaining).2 ≤ remaining := by
  induction remaining generalizing attempt with
  | zero => simp [runAttempts]
  | succ r ih =>
    unfold runAttempts
    cases queryFn attempt with
    | ok a => simp
    | error e =>
      by_cases hr : r = 0
      · simp [hr]
      · simp only [hr, if_neg, not_false_iff]
        have := ih (attempt + 1)
        omega

/-- Claim C3: the wrapper makes at most maxRetries + 1 = 3 invocations;
when the first success is at attempt k, it returns that result after
exactly k + 1 invocations and makes no further attempts; when all three
attempts fail, it makes exactly 3 invocations and fails with the wrapped
error naming the operation and the last underlying cause. -/
theorem retryable_execute_spec {alpha : Type}
    (queryFn : Nat → Except String alpha) (context : String) :
    ((RetryableQuery.execute queryFn context).2 ≤ maxRetries + 1) ∧
    (∀ (k : Nat) (a : alpha), k ≤ maxRetries →
      (∀ i, i < k → ∃ e, queryFn i = Except.error e) →
      queryFn k = Except.ok a →
      RetryableQuery.execute queryFn context = (Except.ok a, k + 1)) ∧
    (∀ es : Nat → String, (∀ i, i ≤ maxRetries → queryFn i = Except.error (es i)) →
      RetryableQuery.execute queryFn context =
        (Except.error (context ++ " failed after " ++ toString maxRetries ++
          " retries: " ++ es maxRetries), maxRetries + 1)) := by
  refine ⟨?_, ?_, ?_⟩
  · unfold RetryableQuery.execute
    have h := runAttempts_count_le queryFn 0 (maxRetries + 1)
    cases hp : (runAttempts queryFn 0 (maxRetries + 1)).1 with
    | ok a => simpa [hp] using h
    | error e => simpa [hp] using h
  · intro k a hk hfail hok
    have hk3 : k ≤ 2 := by simpa [maxRetries] using hk
    unfold RetryableQuery.execute maxRetries
    interval_cases k
    · simp [runAttempts, hok]
    · obtain ⟨e0, he0⟩ := hfail 0 (by omega)
      simp [runAttempts, he0, hok]
    · obtain ⟨e0, he0⟩ := hfail 0 (by omega)
      obtain ⟨e1, he1⟩ := hfail 1 (by omega)
      simp [runAttempts, he0, he1, hok]
  · intro es hfail
    have he0 := hfail 0 (by simp [maxRetries])
    have he1 := hfail 1 (by simp [maxRetries])
    have he2 := hfail 2 (by simp [maxRetries])
    unfold RetryableQuery.execute maxRetries
    simp [runAttempts, he0, he1, he2, maxRetries]

/-- Witness for C3: an operation failing twice then succeeding returns
the third attempt's value after exactly 3 invocations, and an operation
that always fails is wrapped after exactly 3 invocations. -/
theorem retryable_execute_spec_witness :
    RetryableQuery.execute
        (fun i => if i = 2 then Except.ok 42 else Except.error "boom") "op" =
      (Except.ok 42, 3) ∧
    RetryableQuery.execute
        (fun _ => (Except.error "down" : Except String Nat)) "saveBillComplete" =
      (Except.error "saveBillComplete failed after 2 retries: down", 3) := by
  constructor
  · exact (retryable_execute_spec
      (fun i => if i = 2 then Except.ok 42 else Except.error "boom") "op").2.1
      2 42 (by decide) (fun i hi => ⟨"boom", by interval_cases i <;> simp⟩)
      rfl
  · exact (retryable_execute_spec
      (fun _ => (Except.error "down" : Except String Nat)) "saveBillComplete").2.2
      (fun _ => "down") (fun i _ => rfl)

/-! ### Attempt timeout (queryWithTimeout, supabaseService.ts lines 124-134)

queryWithTimeout races the operation against a timer of timeoutMs
milliseconds (default and every call site: 5000). The asynchronous
operation is modelled by the time at which it settles (none when it never
settles) and the outcome it settles with; the race returns the operation's
outcome when it settles strictly before the timer fires, and otherwise
rejects with the timeout error. -/

/-- An asynchronous operation: when it settles, and with what. -/
structure AsyncOp (alpha : Type) where
  completesAt : Option Nat
  outcome : Except String alpha

/-- The message of the rejecting timer (line 131). -/
def timeoutMessage : String :=
  "Query timeout - operation took longer than expected"

/-- queryWithTimeout (lines 124-134) as a race between the operation and
the timer. -/
def queryWithTimeout {alpha : Type} (op : AsyncOp alpha) (timeoutMs : Nat) :
    Except String alpha :=
  match op.completesAt with
  | none => Except.error timeoutMessage
  | some t => if t < timeoutMs then op.outcome else Except.error timeoutMessage

/-- The timeout used by every wrapped call site, and the declared default
(line 126). -/
def defaultTimeoutMs : Nat := 5000

/-- Claim C9: an attempt that has not completed within the 5000 ms bound
fails with the timeout error instead of hanging, and such timed-out
attempts are subject to the retry policy: wrapping attempts that never
settle in the retry wrapper yields the wrapped timeout failure after the
full retry budget. -/
theorem query_with_timeout_spec {alpha : Type} (op : AsyncOp alpha)
    (h : ∀ t, op.completesAt = some t → defaultTimeoutMs < t) :
    queryWithTimeout op defaultTimeoutMs = Except.error timeoutMessage ∧
    (∀ (ops : Nat → AsyncOp alpha) (context : String),
      (∀ i, (ops i).completesAt = none) →
      RetryableQuery.execute (fun i => queryWithTimeout (ops i) defaultTimeoutMs)
          context =
        (Except.error (context ++ " failed after " ++ toString maxRetries ++
          " retries: " ++ timeoutMessage), maxRetries + 1)) := by
  constructor
  · unfold queryWithTimeout
    cases hc : op.completesAt with
    | none => rfl
    | some t =>
      have ht := h t hc
      have : ¬ t < defaultTimeoutMs := by omega
      simp [this]
  · intro ops context hnone
    refine (retryable_execute_spec
      (fun i => queryWithTimeout (ops i) defaultTimeoutMs) context).2.2
      (fun _ => timeoutMessage) ?_
    intro i _
    unfold queryWithTimeout
    rw [hnone i]

/-- Witness for C9: an operation that never settles times out, and three
such attempts produce the wrapped timeout failure. -/
theorem query_with_timeout_spec_witness :
    queryWithTimeout (AsyncOp.mk none (Except.error "x") : AsyncOp Nat)
        defaultTimeoutMs = Except.error timeoutMessage ∧
    RetryableQuery.execute
        (fun _ => queryWithTimeout
          (AsyncOp.mk none (Except.error "x") : AsyncOp Nat) defaultTimeoutMs)
        "getBillWithDetails" =
      (Except.error ("getBillWithDetails failed after 2 retries: " ++
        timeoutMessage), 3) := by
  have h := query_with_timeout_spec (AsyncOp.mk none
    (Except.error "x") : AsyncOp Nat) (fun t ht => by simp at ht)
  exact ⟨h.1, h.2 (fun _ => AsyncOp.mk none (Except.error "x"))
    "getBillWithDetails" (fun _ => rfl)⟩

/-! ### The remote store

Rows of the tables touched by the engine (database-schema.sql): renters
(only the columns the engine reads), monthly_bills with its UNIQUE
(renter_id, month, year) constraint, additional_expenses and
bill_payments. UUIDs are modelled as naturals drawn from a single fresh
counter nextId; gen_random_uuid() then corresponds to taking the counter
value, which determinises identity generation without affecting any of
the claims (they only need freshness). DECIMAL and DATE columns are
modelled as Int. -/

/-- The non-key columns of monthly_bills written by the upsert of
save_bill_complete (database-performance-optimization.sql lines 174-250). -/
structure BillFields where
  rent_amount : Int
  electricity_enabled : Bool
  electricity_initial_reading : Int
  electricity_final_reading : Int
  electricity_multiplier : Int
  electricity_reading_date : Int
  electricity_amount : Int
  motor_enabled : Bool
  motor_initial_reading : Int
  motor_final_reading : Int
  motor_multiplier : Int
  motor_number_of_people : Int
  motor_reading_date : Int
  motor_amount : Int
  water_enabled : Bool
  water_amount : Int
  maintenance_enabled : Bool
  maintenance_amount : Int
  total_amount : Int
  total_payments : Int
  pending_amount : Int
deriving DecidableEq, Repr

/-- A row of monthly_bills. -/
structure BillRow where
  id : Nat
  userId : Nat
  renterId : Int
  month : Int
  year : Int
  fields : BillFields
deriving DecidableEq, Repr

/-- A row of renters (only the columns the engine consults). -/
structure RenterRow where
  id : Int
  userId : Nat
deriving DecidableEq, Repr

/-- A child row of additional_expenses or bill_payments: its id, its
monthly_bill_id foreign key and the remaining columns beta. -/
structure ChildRow (beta : Type) where
  id : Nat
  monthlyBillId : Nat
  fields : beta
deriving DecidableEq, Repr

/-- An incoming child of the save payload: an optional assigned identity
(the id JSON field, absent or null for new children) and the remaining
columns. -/
structure ChildIn (beta : Type) where
  id : Option Nat
  fields : beta
deriving DecidableEq, Repr

/-- Non-id columns of additional_expenses. -/
structure ExpenseFields where
  description : String
  amount : Int
  date : Int
deriving DecidableEq, Repr

/-- Non-id columns of bill_payments. -/
structure PaymentFields where
  amount : Int
  payment_date : Int
  payment_type : String
  note : String
deriving DecidableEq, Repr

/-- The remote store. -/
structure Store where
  renters : List RenterRow
  bills : List BillRow
  expenses : List (ChildRow ExpenseFields)
  payments : List (ChildRow PaymentFields)
  nextId : Nat
deriving DecidableEq, Repr

/-! ### Reconciliation writer (save_bill_complete,
database-performance-optimization.sql lines 154-348) -/

/-- The p_bill_data payload of save_bill_complete. -/
structure BillInput where
  renterId : Int
  month : Int
  year : Int
  fields : BillFields
deriving DecidableEq, Repr

/-- The JSON result of save_bill_complete (lines 341-346). -/
structure SaveBillResult where
  billId : Nat
  expenseIds : List Nat
  paymentIds : List Nat
  success : Bool
deriving DecidableEq, Repr

/-- The conflict target of the bill upsert: the UNIQUE (renter_id, month,
year) constraint of monthly_bills. -/
def billKeyMatches (b : BillRow) (renterId month year : Int) : Bool :=
  b.renterId == renterId && b.month == month && b.year == year

/-- The INSERT ... ON CONFLICT (renter_id, month, year) DO UPDATE of
save_bill_complete (lines 174-251): when a row with the key exists all its
non-key fields are overwritten (user_id is not in the update list and is
kept); otherwise a fresh row owned by p_user_id is inserted. Returns the
id of the affected row (RETURNING id) and the updated store. -/
def upsertBill (st : Store) (userId : Nat) (input : BillInput) : Nat × Store :=
  match st.bills.find? (fun b => billKeyMatches b input.renterId input.month input.year) with
  | some b =>
    (b.id, { st with bills := st.bills.map (fun r =>
      if billKeyMatches r input.renterId input.month input.year then
        { r with fields := input.fields } else r) })
  | none =>
    (st.nextId,
     { st with
        bills := st.bills ++
          [⟨st.nextId, userId, input.renterId, input.month, input.year, input.fields⟩],
        nextId := st.nextId + 1 })

/-- The assigned identities of the incoming list: the ids that are
present and non-null (the WHERE value->>'id' IS NOT NULL AND != 'null'
filter, lines 256-259). -/
def assignedIds {beta : Type} (incoming : List (ChildIn beta)) : List Nat :=
  incoming.filterMap (fun c => c.id)

/-- The DELETE of children attached to the bill whose id is NOT IN the
incoming assigned identities (lines 253-269): a row survives when it
belongs to another bill or its id is among the assigned ids. -/
def deleteStale {beta : Type} (rows : List (ChildRow beta)) (billId : Nat)
    (assigned : List Nat) : List (ChildRow beta) :=
  rows.filter (fun r => !(r.monthlyBillId == billId) || assigned.contains r.id)

/-- The FOR ... LOOP over the incoming children (lines 276-338): an
incoming child without an assigned id is inserted with a fresh identity;
one with an assigned id has its non-id fields overwritten on the row with
that id attached to this bill. The returned identity list collects, in
input order, the fresh id for inserts and the assigned id for updates
(appended whether or not the UPDATE matched a row). -/
def processChildren {beta : Type} (billId : Nat) :
    List (ChildRow beta) → Nat → List (ChildIn beta) →
    List (ChildRow beta) × Nat × List Nat
  | rows, next, [] => (rows, next, [])
  | rows, next, c :: cs =>
    match c.id with
    | none =>
      let p := processChildren billId (rows ++ [⟨next, billId, c.fields⟩]) (next + 1) cs
      (p.1, p.2.1, next :: p.2.2)
    | some x =>
      let p := processChildren billId
        (rows.map (fun r =>
          if r.id == x && r.monthlyBillId == billId then { r with fields := c.fields } else r))
        next cs
      (p.1, p.2.1, x :: p.2.2)

/-- save_bill_complete (lines 154-348): upsert the bill, delete the stale
children of both child tables, then process the two incoming lists, and
return the bill id, both identity lists and success = true. -/
def save_bill_complete (st : Store) (billData : BillInput)
    (expensesIn : List (ChildIn ExpenseFields))
    (paymentsIn : List (ChildIn PaymentFields)) (userId : Nat) :
    SaveBillResult × Store :=
  let u := upsertBill st userId billData
  let expRows := deleteStale u.2.expenses u.1 (assignedIds expensesIn)
  let payRows := deleteStale u.2.payments u.1 (assignedIds paymentsIn)
  let pe := processChildren u.1 expRows u.2.nextId expensesIn
  let pp := processChildren u.1 payRows pe.2.1 paymentsIn
  (⟨u.1, pe.2.2, pp.2.2, true⟩,
   { u.2 with expenses := pe.1, payments := pp.1, nextId := pp.2.1 })

/-! ### Auxiliary forms of processChildren used by the proofs -/

/-- The effect of a single loop iteration on one stored row: an assigned
incoming child overwrites the non-id fields of the row carrying its id
within this bill; anything else leaves the row unchanged. -/
def updOne {beta : Type} (billId : Nat) (c : ChildIn beta) (r : ChildRow beta) :
    ChildRow beta :=
  match c.id with
  | none => r
  | some x =>
    if r.id == x && r.monthlyBillId == billId then { r with fields := c.fields } else r

/-- Whether the incoming child c addresses the stored row r. -/
def childMatches {beta : Type} (billId : Nat) (c : ChildIn beta)
    (r : ChildRow beta) : Bool :=
  match c.id with
  | none => false
  | some x => r.id == x && r.monthlyBillId == billId

/-- The combined effect of the whole loop of updates on one stored row. -/
def applyAll {beta : Type} (billId : Nat) (incoming : List (ChildIn beta))
    (r : ChildRow beta) : ChildRow beta :=
  incoming.foldl (fun r c => updOne billId c r) r

theorem updOne_id {beta : Type} (billId : Nat) (c : ChildIn beta)
    (r : ChildRow beta) : (updOne billId c r).id = r.id := by
  unfold updOne
  cases c.id with
  | none => rfl
  | some x =>
    by_cases h : (r.id == x && r.monthlyBillId == billId) = true
    · simp [h]
    · simp [h]

theorem updOne_bid {beta : Type} (billId : Nat) (c : ChildIn beta)
    (r : ChildRow beta) : (updOne billId c r).monthlyBillId = r.monthlyBillId := by
  unfold updOne
  cases c.id with
  | none => rfl
  | some x =>
    by_cases h : (r.id == x && r.monthlyBillId == billId) = true
    · simp [h]
    · simp [h]

theorem applyAll_nil {beta : Type} (billId : Nat) (r : ChildRow beta) :
    applyAll billId [] r = r := rfl

theorem applyAll_cons {beta : Type} (billId : Nat) (c : ChildIn beta)
    (cs : List (ChildIn beta)) (r : ChildRow beta) :
    applyAll billId (c :: cs) r = applyAll billId cs (updOne billId c r) := rfl

theorem applyAll_id {beta : Type} (billId : Nat) (incoming : List (ChildIn beta))
    (r : ChildRow beta) : (applyAll billId incoming r).id = r.id := by
  induction incoming generalizing r with
  | nil => rfl
  | cons c cs ih => rw [applyAll_cons, ih, updOne_id]

theorem applyAll_bid {beta : Type} (billId : Nat) (incoming : List (ChildIn beta))
    (r : ChildRow beta) :
    (applyAll billId incoming r).monthlyBillId = r.monthlyBillId := by
  induction incoming generalizing r with
  | nil => rfl
  | cons c cs ih => rw [applyAll_cons, ih, updOne_bid]

theorem childMatches_updOne {beta : Type} (billId : Nat) (c d : ChildIn beta)
    (r : ChildRow beta) :
    childMatches billId d (updOne billId c r) = childMatches billId d r := by
  unfold childMatches
  cases d.id with
  | none => rfl
  | some x => rw [updOne_id, updOne_bid]

theorem updOne_of_matches {beta : Type} (billId : Nat) (c : ChildIn beta)
    (r : ChildRow beta) (h : childMatches billId c r = true) :
    updOne billId c r = { r with fields := c.fields } := by
  unfold childMatches at h
  unfold updOne
  cases hc : c.id with
  | none => rw [hc] at h; simp at h
  | some x =>
    rw [hc] at h
    have h2 : (r.id == x && r.monthlyBillId == billId) = true := h
    simp [h2]

theorem updOne_of_not_matches {beta : Type} (billId : Nat) (c : ChildIn beta)
    (r : ChildRow beta) (h : childMatches billId c r = false) :
    updOne billId c r = r := by
  unfold childMatches at h
  unfold updOne
  cases hc : c.id with
  | none => rfl
  | some x =>
    rw [hc] at h
    have h2 : (r.id == x && r.monthlyBillId == billId) = false := h
    simp [h2]

/-- find? only depends on the pointwise values of the predicate. -/
theorem find?_congr_local {gamma : Type} (l : List gamma) (p q : gamma → Bool)
    (h : ∀ a, p a = q a) : l.find? p = l.find? q := by
  induction l with
  | nil => rfl
  | cons a t ih =>
    rw [List.find?_cons, List.find?_cons, h a]
    cases q a
    · exact ih
    · rfl

/-- The loop of updates applied to one row: the last matching incoming
child wins; if none matches, the row is untouched. -/
theorem applyAll_eq_find {beta : Type} (billId : Nat)
    (incoming : List (ChildIn beta)) (r : ChildRow beta) :
    applyAll billId incoming r =
      match incoming.reverse.find? (fun c => childMatches billId c r) with
      | some c => { r with fields := c.fields }
      | none => r := by
  induction incoming generalizing r with
  | nil => rfl
  | cons c cs ih =>
    rw [applyAll_cons, ih (updOne billId c r), List.reverse_cons, List.find?_append]
    have hpred : ∀ d, childMatches billId d (updOne billId c r) =
        childMatches billId d r := fun d => childMatches_updOne billId c d r
    have hfind : cs.reverse.find? (fun d => childMatches billId d (updOne billId c r))
        = cs.reverse.find? (fun d => childMatches billId d r) :=
      find?_congr_local cs.reverse _ _ hpred
    rw [hfind]
    cases hf : cs.reverse.find? (fun d => childMatches billId d r) with
    | some d =>
      by_cases hm : childMatches billId c r = true
      · rw [updOne_of_matches billId c r hm]
        simp
      · rw [updOne_of_not_matches billId c r (by simpa using hm)]
        simp
    | none =>
      by_cases hm : childMatches billId c r = true
      · rw [updOne_of_matches billId c r hm]
        have hm2 : childMatches billId c ({ r with fields := c.fields } : ChildRow beta)
            = true := by
          rw [show ({ r with fields := c.fields } : ChildRow beta) = updOne billId c r
            from (updOne_of_matches billId c r hm).symm]
          rw [childMatches_updOne]
          exact hm
        simp [List.find?_singleton, hm, hm2]
      · rw [updOne_of_not_matches billId c r (by simpa using hm)]
        simp only [Bool.not_eq_true] at hm
        simp [List.find?_singleton, hm]

/-- A row matched by no incoming child survives the loop untouched. -/
theorem applyAll_of_no_match {beta : Type} (billId : Nat)
    (incoming : List (ChildIn beta)) (r : ChildRow beta)
    (h : ∀ c ∈ incoming, childMatches billId c r = false) :
    applyAll billId incoming r = r := by
  rw [applyAll_eq_find]
  have : incoming.reverse.find? (fun c => childMatches billId c r) = none := by
    rw [List.find?_eq_none]
    intro c hc
    simp [h c (List.mem_reverse.mp hc)]
  rw [this]

/-- Running the whole loop of updates twice has the effect of running it
once. -/
theorem applyAll_idem {beta : Type} (billId : Nat)
    (incoming : List (ChildIn beta)) (r : ChildRow beta) :
    applyAll billId incoming (applyAll billId incoming r) =
      applyAll billId incoming r := by
  rw [applyAll_eq_find billId incoming r]
  cases hf : incoming.reverse.find? (fun c => childMatches billId c r) with
  | none =>
    rw [applyAll_eq_find, hf]
  | some c =>
    have hpred : ∀ d, childMatches billId d
        ({ r with fields := c.fields } : ChildRow beta) = childMatches billId d r := by
      intro d
      unfold childMatches
      cases d.id with
      | none => rfl
      | some x => rfl
    rw [applyAll_eq_find]
    rw [find?_congr_local incoming.reverse _ _ hpred, hf]

/-- Mapping the empty loop over rows does nothing. -/
theorem map_applyAll_nil {beta : Type} (billId : Nat)
    (rows : List (ChildRow beta)) :
    rows.map (applyAll billId []) = rows := by
  induction rows with
  | nil => rfl
  | cons a t ih => simp only [List.map_cons, applyAll_nil, ih]

/-- Unfolding equation of processChildren for an assigned head. -/
theorem processChildren_cons_some {beta : Type} (billId : Nat)
    (rows : List (ChildRow beta)) (next : Nat) (c : ChildIn beta)
    (cs : List (ChildIn beta)) (x : Nat) (hc : c.id = some x) :
    processChildren billId rows next (c :: cs) =
      ((processChildren billId (rows.map (updOne billId c)) next cs).1,
       (processChildren billId (rows.map (updOne billId c)) next cs).2.1,
       x :: (processChildren billId (rows.map (updOne billId c)) next cs).2.2) := by
  have hupd : (fun r : ChildRow beta =>
      if r.id == x && r.monthlyBillId == billId then { r with fields := c.fields }
      else r) = updOne billId c := by
    funext r
    unfold updOne
    rw [hc]
  have hstep : processChildren billId rows next (c :: cs) =
      ((processChildren billId (rows.map (fun r : ChildRow beta =>
          if r.id == x && r.monthlyBillId == billId then { r with fields := c.fields }
          else r)) next cs).1,
       (processChildren billId (rows.map (fun r : ChildRow beta =>
          if r.id == x && r.monthlyBillId == billId then { r with fields := c.fields }
          else r)) next cs).2.1,
       x :: (processChildren billId (rows.map (fun r : ChildRow beta =>
          if r.id == x && r.monthlyBillId == billId then { r with fields := c.fields }
          else r)) next cs).2.2) := by
    conv_lhs => rw [processChildren]
    rw [hc]
  rw [hstep, hupd]

/-- Unfolding equation of processChildren for an unassigned head. -/
theorem processChildren_cons_none {beta : Type} (billId : Nat)
    (rows : List (ChildRow beta)) (next : Nat) (c : ChildIn beta)
    (cs : List (ChildIn beta)) (hc : c.id = none) :
    processChildren billId rows next (c :: cs) =
      ((processChildren billId (rows ++ [⟨next, billId, c.fields⟩]) (next + 1) cs).1,
       (processChildren billId (rows ++ [⟨next, billId, c.fields⟩]) (next + 1) cs).2.1,
       next ::
         (processChildren billId (rows ++ [⟨next, billId, c.fields⟩]) (next + 1) cs).2.2) := by
  conv_lhs => rw [processChildren]
  rw [hc]

/-- When every incoming child carries an assigned identity, the loop does
nothing but in-place updates: no row is added, the fresh counter does not
move, and the returned identities are exactly the assigned ones in input
order. -/
theorem processChildren_all_assigned {beta : Type} (billId : Nat)
    (incoming : List (ChildIn beta)) (rows : List (ChildRow beta)) (next : Nat)
    (h : ∀ c ∈ incoming, c.id.isSome = true) :
    processChildren billId rows next incoming =
      (rows.map (applyAll billId incoming), next, assignedIds incoming) := by
  induction incoming generalizing rows with
  | nil =>
    simp [processChildren, assignedIds, map_applyAll_nil]
  | cons c cs ih =>
    cases hc : c.id with
    | none =>
      have := h c (List.mem_cons_self c cs)
      rw [hc] at this
      simp at this
    | some x =>
      have hcs : ∀ d ∈ cs, d.id.isSome = true := fun d hd =>
        h d (List.mem_cons_of_mem c hd)
      rw [processChildren_cons_some billId rows next c cs x hc]
      rw [ih (rows.map (updOne billId c)) hcs]
      have hmap2 : (rows.map (updOne billId c)).map (applyAll billId cs) =
          rows.map (applyAll billId (c :: cs)) := by
        rw [List.map_map]
        apply List.map_congr_left
        intro r _
        show applyAll billId cs (updOne billId c r) = applyAll billId (c :: cs) r
        rw [applyAll_cons]
      have hids : assignedIds (c :: cs) = x :: assignedIds cs := by
        simp [assignedIds, hc]
      show ((rows.map (updOne billId c)).map (applyAll billId cs), next,
        x :: assignedIds cs) = _
      rw [hmap2, hids]

/-- The identity list returned by the loop: assigned ids verbatim, the
running fresh counter for unassigned children. -/
def resultIds {beta : Type} (next : Nat) : List (ChildIn beta) → List Nat
  | [] => []
  | c :: cs =>
    match c.id with
    | some x => x :: resultIds next cs
    | none => next :: resultIds (next + 1) cs

/-- The rows inserted by the loop, in input order, with the fresh
identities they receive. -/
def newRows {beta : Type} (billId next : Nat) :
    List (ChildIn beta) → List (ChildRow beta)
  | [] => []
  | c :: cs =>
    match c.id with
    | some _ => newRows billId next cs
    | none => ⟨next, billId, c.fields⟩ :: newRows billId (next + 1) cs

/-- How many incoming children are unassigned (will be inserted). -/
def numNew {beta : Type} (incoming : List (ChildIn beta)) : Nat :=
  incoming.countP (fun c => c.id.isNone)

theorem numNew_cons_some {beta : Type} (x : Nat) (c : ChildIn beta)
    (cs : List (ChildIn beta)) (hc : c.id = some x) :
    numNew (c :: cs) = numNew cs := by
  unfold numNew
  rw [List.countP_cons]
  simp [hc]

theorem numNew_cons_none {beta : Type} (c : ChildIn beta)
    (cs : List (ChildIn beta)) (hc : c.id = none) :
    numNew (c :: cs) = numNew cs + 1 := by
  unfold numNew
  rw [List.countP_cons]
  simp [hc]

/-- Decomposition of the loop when all incoming assigned identities lie
below the fresh counter (as is the case when they exist in the store):
final rows are the updated old rows followed by the inserted fresh rows,
the counter advances by the number of inserts, and the identity list is
resultIds. -/
theorem processChildren_decomp {beta : Type} (billId : Nat)
    (incoming : List (ChildIn beta)) (rows : List (ChildRow beta)) (next : Nat)
    (hin : ∀ c ∈ incoming, ∀ x, c.id = some x → x < next)
    (hrows : ∀ r ∈ rows, r.id < next) :
    processChildren billId rows next incoming =
      (rows.map (applyAll billId incoming) ++ newRows billId next incoming,
       next + numNew incoming, resultIds next incoming) := by
  induction incoming generalizing rows next with
  | nil =>
    simp [processChildren, newRows, numNew, resultIds, map_applyAll_nil]
  | cons c cs ih =>
    cases hc : c.id with
    | some x =>
      have hcs : ∀ d ∈ cs, ∀ z, d.id = some z → z < next := fun d hd =>
        hin d (List.mem_cons_of_mem c hd)
      have hrows2 : ∀ r ∈ rows.map (updOne billId c), r.id < next := by
        intro r hr
        obtain ⟨r0, hr0, hrr⟩ := List.mem_map.mp hr
        have := hrows r0 hr0
        rw [← hrr, updOne_id]
        exact this
      rw [processChildren_cons_some billId rows next c cs x hc]
      rw [ih (rows.map (updOne billId c)) next hcs hrows2]
      have hmap2 : (rows.map (updOne billId c)).map (applyAll billId cs) =
          rows.map (applyAll billId (c :: cs)) := by
        rw [List.map_map]
        apply List.map_congr_left
        intro r _
        show applyAll billId cs (updOne billId c r) = applyAll billId (c :: cs) r
        rw [applyAll_cons]
      show ((rows.map (updOne billId c)).map (applyAll billId cs) ++
          newRows billId next cs, next + numNew cs, x :: resultIds next cs) = _
      have hnew : newRows billId next (c :: cs) = newRows billId next cs := by
        conv_lhs => rw [newRows]
        rw [hc]
      have hres : resultIds next (c :: cs) = x :: resultIds next cs := by
        conv_lhs => rw [resultIds]
        rw [hc]
      rw [hmap2, numNew_cons_some x c cs hc, hnew, hres]
    | none =>
      have hcs : ∀ d ∈ cs, ∀ z, d.id = some z → z < next + 1 := by
        intro d hd z hz
        have := hin d (List.mem_cons_of_mem c hd) z hz
        omega
      have hrows2 : ∀ r ∈ rows ++ [(⟨next, billId, c.fields⟩ : ChildRow beta)],
          r.id < next + 1 := by
        intro r hr
        rcases List.mem_append.mp hr with hr | hr
        · have := hrows r hr; omega
        · simp only [List.mem_singleton] at hr
          subst hr
          show next < next + 1
          omega
      rw [processChildren_cons_none billId rows next c cs hc]
      rw [ih (rows ++ [(⟨next, billId, c.fields⟩ : ChildRow beta)]) (next + 1) hcs hrows2]
      have h1 : ∀ r ∈ rows, applyAll billId cs r = applyAll billId (c :: cs) r := by
        intro r _
        rw [applyAll_cons]
        rw [show updOne billId c r = r from by unfold updOne; rw [hc]]
      have h2 : applyAll billId cs (⟨next, billId, c.fields⟩ : ChildRow beta) =
          ⟨next, billId, c.fields⟩ := by
        apply applyAll_of_no_match
        intro d hd
        unfold childMatches
        cases hd2 : d.id with
        | none => rfl
        | some z =>
          have hz := hin d (List.mem_cons_of_mem c hd) z hd2
          have : next ≠ z := by omega
          simp [this]
      have hfirst : (rows ++ [(⟨next, billId, c.fields⟩ : ChildRow beta)]).map
            (applyAll billId cs) ++ newRows billId (next + 1) cs =
          rows.map (applyAll billId (c :: cs)) ++ newRows billId next (c :: cs) := by
        rw [List.map_append, List.map_cons, List.map_nil, h2]
        rw [List.map_congr_left h1]
        have hnew : newRows billId next (c :: cs) =
            (⟨next, billId, c.fields⟩ : ChildRow beta) :: newRows billId (next + 1) cs := by
          conv_lhs => rw [newRows]
          rw [hc]
        rw [hnew]
        rw [List.append_assoc]
        rfl
      have hsecond : next + 1 + numNew cs = next + numNew (c :: cs) := by
        rw [numNew_cons_none c cs hc]
        omega
      have hthird : (next :: resultIds (next + 1) cs : List Nat) =
          resultIds next (c :: cs) := by
        conv_rhs => rw [resultIds]
        rw [hc]
      show ((rows ++ [(⟨next, billId, c.fields⟩ : ChildRow beta)]).map
          (applyAll billId cs) ++ newRows billId (next + 1) cs,
        next + 1 + numNew cs, next :: resultIds (next + 1) cs) = _
      rw [hfirst, hsecond, hthird]

theorem assignedIds_cons_some {beta : Type} (c : ChildIn beta)
    (cs : List (ChildIn beta)) (x : Nat) (hc : c.id = some x) :
    assignedIds (c :: cs) = x :: assignedIds cs := by
  simp [assignedIds, hc]

theorem assignedIds_cons_none {beta : Type} (c : ChildIn beta)
    (cs : List (ChildIn beta)) (hc : c.id = none) :
    assignedIds (c :: cs) = assignedIds cs := by
  simp [assignedIds, hc]

theorem resultIds_cons_some {beta : Type} (next : Nat) (c : ChildIn beta)
    (cs : List (ChildIn beta)) (x : Nat) (hc : c.id = some x) :
    resultIds next (c :: cs) = x :: resultIds next cs := by
  conv_lhs => rw [resultIds]
  rw [hc]

theorem resultIds_cons_none {beta : Type} (next : Nat) (c : ChildIn beta)
    (cs : List (ChildIn beta)) (hc : c.id = none) :
    resultIds next (c :: cs) = next :: resultIds (next + 1) cs := by
  conv_lhs => rw [resultIds]
  rw [hc]

theorem newRows_cons_some {beta : Type} (billId next : Nat) (c : ChildIn beta)
    (cs : List (ChildIn beta)) (x : Nat) (hc : c.id = some x) :
    newRows billId next (c :: cs) = newRows billId next cs := by
  conv_lhs => rw [newRows]
  rw [hc]

theorem newRows_cons_none {beta : Type} (billId next : Nat) (c : ChildIn beta)
    (cs : List (ChildIn beta)) (hc : c.id = none) :
    newRows billId next (c :: cs) =
      ⟨next, billId, c.fields⟩ :: newRows billId (next + 1) cs := by
  conv_lhs => rw [newRows]
  rw [hc]

theorem resultIds_length {beta : Type} (next : Nat) (inc : List (ChildIn beta)) :
    (resultIds next inc).length = inc.length := by
  induction inc generalizing next with
  | nil => rfl
  | cons c cs ih =>
    cases hc : c.id with
    | some x => rw [resultIds_cons_some next c cs x hc]; simp [ih]
    | none => rw [resultIds_cons_none next c cs hc]; simp [ih]

/-- The identity returned at an assigned position is that position's
assigned id. -/
theorem resultIds_getD_assigned {beta : Type} (next : Nat)
    (inc : List (ChildIn beta)) (dflt : ChildIn beta) (i : Nat)
    (hi : i < inc.length) (x : Nat) (hx : (inc.getD i dflt).id = some x) :
    (resultIds next inc).getD i 0 = x := by
  induction inc generalizing next i with
  | nil => simp at hi
  | cons c cs ih =>
    cases i with
    | zero =>
      simp only [List.getD_cons_zero] at hx
      rw [resultIds_cons_some next c cs x hx]
      simp
    | succ j =>
      simp only [List.getD_cons_succ] at hx
      have hj : j < cs.length := by simpa using hi
      cases hc : c.id with
      | some y =>
        rw [resultIds_cons_some next c cs y hc]
        simpa using ih next j hj hx
      | none =>
        rw [resultIds_cons_none next c cs hc]
        simpa using ih (next + 1) j hj hx

/-- Every returned identity is either an incoming assigned id or a fresh
id allocated from the counter. -/
theorem resultIds_mem {beta : Type} (next : Nat) (inc : List (ChildIn beta))
    (z : Nat) (hz : z ∈ resultIds next inc) :
    z ∈ assignedIds inc ∨ (next ≤ z ∧ z < next + numNew inc) := by
  induction inc generalizing next with
  | nil => simp [resultIds] at hz
  | cons c cs ih =>
    cases hc : c.id with
    | some x =>
      rw [resultIds_cons_some next c cs x hc] at hz
      rw [assignedIds_cons_some c cs x hc, numNew_cons_some x c cs hc]
      rcases List.mem_cons.mp hz with hz | hz
      · exact Or.inl (by simp [hz])
      · rcases ih next hz with h | h
        · exact Or.inl (List.mem_cons_of_mem x h)
        · exact Or.inr h
    | none =>
      rw [resultIds_cons_none next c cs hc] at hz
      rw [assignedIds_cons_none c cs hc, numNew_cons_none c cs hc]
      rcases List.mem_cons.mp hz with hz | hz
      · subst hz
        exact Or.inr ⟨Nat.le_refl z, by omega⟩
      · rcases ih (next + 1) hz with h | h
        · exact Or.inl h
        · exact Or.inr ⟨by omega, by omega⟩

/-- The returned identity list has no duplicates when the assigned ids
are distinct and lie below the fresh counter. -/
theorem resultIds_nodup {beta : Type} (next : Nat) (inc : List (ChildIn beta))
    (hnd : (assignedIds inc).Nodup) (hlt : ∀ x ∈ assignedIds inc, x < next) :
    (resultIds next inc).Nodup := by
  induction inc generalizing next with
  | nil => simp [resultIds]
  | cons c cs ih =>
    cases hc : c.id with
    | some x =>
      rw [assignedIds_cons_some c cs x hc] at hnd hlt
      rw [resultIds_cons_some next c cs x hc]
      have hx := List.nodup_cons.mp hnd
      refine List.nodup_cons.mpr ⟨?_, ih next hx.2 (fun z hz =>
        hlt z (List.mem_cons_of_mem x hz))⟩
      intro hmem
      rcases resultIds_mem next cs x hmem with h | h
      · exact hx.1 h
      · have := hlt x (List.mem_cons_self x _)
        omega
    | none =>
      rw [assignedIds_cons_none c cs hc] at hnd hlt
      rw [resultIds_cons_none next c cs hc]
      refine List.nodup_cons.mpr ⟨?_, ih (next + 1) hnd (fun z hz => by
        have := hlt z hz
        omega)⟩
      intro hmem
      rcases resultIds_mem (next + 1) cs next hmem with h | h
      · have := hlt next h
        omega
      · omega

/-- The rows the claim expects to find attached to the bill after the
save: one row per incoming child, carrying the returned identity of its
position and the incoming fields. -/
def expectedRows {beta : Type} (billId : Nat) (ids : List Nat)
    (inc : List (ChildIn beta)) : List (ChildRow beta) :=
  (ids.zip inc).map (fun p => ⟨p.1, billId, p.2.fields⟩)

theorem expectedRows_nil {beta : Type} (billId : Nat) (ids : List Nat) :
    expectedRows billId ids ([] : List (ChildIn beta)) = [] := by
  simp [expectedRows]

theorem expectedRows_cons {beta : Type} (billId : Nat) (i : Nat)
    (ids : List Nat) (c : ChildIn beta) (cs : List (ChildIn beta)) :
    expectedRows billId (i :: ids) (c :: cs) =
      ⟨i, billId, c.fields⟩ :: expectedRows billId ids cs := by
  simp [expectedRows]

/-- Core reconciliation lemma: if the surviving old rows carry exactly the
incoming assigned identities (one row per assigned id, all attached to
the bill, distinct), then the updated old rows together with the inserted
fresh rows are, up to order, exactly one row per incoming child with the
returned identity and the incoming fields. -/
theorem reconcile_perm {beta : Type} [DecidableEq beta] (billId : Nat)
    (inc : List (ChildIn beta)) (next : Nat) (rows : List (ChildRow beta))
    (hids : List.Perm (rows.map (fun r => r.id)) (assignedIds inc))
    (hbid : ∀ r ∈ rows, r.monthlyBillId = billId)
    (hnodup : (rows.map (fun r => r.id)).Nodup)
    (hanodup : (assignedIds inc).Nodup) :
    List.Perm (rows.map (applyAll billId inc) ++ newRows billId next inc)
      (expectedRows billId (resultIds next inc) inc) := by
  induction inc generalizing rows next with
  | nil =>
    have : rows.map (fun r => r.id) = [] := List.Perm.eq_nil (by simpa [assignedIds] using hids)
    have hrows : rows = [] := by
      cases rows with
      | nil => rfl
      | cons a t => simp at this
    subst hrows
    simp [newRows, resultIds, expectedRows]
  | cons c cs ih =>
    cases hc : c.id with
    | none =>
      rw [assignedIds_cons_none c cs hc] at hids hanodup
      rw [resultIds_cons_none next c cs hc, newRows_cons_none billId next c cs hc,
        expectedRows_cons]
      have hmapeq : rows.map (applyAll billId (c :: cs)) =
          rows.map (applyAll billId cs) := by
        apply List.map_congr_left
        intro r _
        rw [applyAll_cons, show updOne billId c r = r from by unfold updOne; rw [hc]]
      rw [hmapeq]
      refine List.Perm.trans List.perm_middle ?_
      exact List.Perm.cons _ (ih (next + 1) rows hids hbid hnodup hanodup)
    | some x =>
      rw [assignedIds_cons_some c cs x hc] at hids hanodup
      have hxrows : x ∈ rows.map (fun r => r.id) :=
        hids.mem_iff.mpr (List.mem_cons_self x _)
      obtain ⟨r0, hr0mem, hr0id⟩ := List.mem_map.mp hxrows
      have hperm0 : List.Perm rows (r0 :: rows.erase r0) :=
        List.perm_cons_erase hr0mem
      set rest := rows.erase r0 with hrest
      have hidperm : List.Perm (x :: rest.map (fun r => r.id))
          (x :: assignedIds cs) := by
        refine List.Perm.trans ?_ hids
        have := (hperm0.map (fun r => r.id)).symm
        simpa [hr0id] using this
      have hrestids : List.Perm (rest.map (fun r => r.id)) (assignedIds cs) :=
        hidperm.cons_inv
      have hnodup2 : (x :: rest.map (fun r => r.id)).Nodup := by
        have := (hperm0.map (fun r => r.id)).nodup_iff.mp ?_
        · simpa [hr0id] using this
        · exact hnodup
      have hxnotin : x ∉ rest.map (fun r => r.id) := (List.nodup_cons.mp hnodup2).1
      have hanodup2 := List.nodup_cons.mp hanodup
      have hrestsub : ∀ r ∈ rest, r ∈ rows := fun r hr =>
        (List.erase_sublist r0 rows).mem hr
      have hg0 : applyAll billId (c :: cs) r0 = ⟨x, billId, c.fields⟩ := by
        rw [applyAll_cons]
        rw [updOne_of_matches billId c r0 (by
          unfold childMatches
          rw [hc]
          simp [hr0id, hbid r0 hr0mem])]
        have hnomatch : ∀ d ∈ cs, childMatches billId d
            ({ r0 with fields := c.fields } : ChildRow beta) = false := by
          intro d hd
          unfold childMatches
          cases hd2 : d.id with
          | none => rfl
          | some z =>
            have hzmem : z ∈ assignedIds cs := by
              unfold assignedIds
              exact List.mem_filterMap.mpr ⟨d, hd, hd2⟩
            have hzx : r0.id ≠ z := by
              rw [hr0id]
              intro hxz
              exact hanodup2.1 (hxz ▸ hzmem)
            simp [hzx]
        rw [applyAll_of_no_match billId cs _ hnomatch]
        have h1 : r0.id = x := hr0id
        have h2 : r0.monthlyBillId = billId := hbid r0 hr0mem
        cases r0
        simp only at h1 h2
        rw [h1, h2]
      have hgrest : ∀ r ∈ rest, applyAll billId (c :: cs) r =
          applyAll billId cs r := by
        intro r hr
        rw [applyAll_cons]
        rw [updOne_of_not_matches billId c r (by
          unfold childMatches
          rw [hc]
          have : r.id ≠ x := by
            intro hrx
            exact hxnotin (List.mem_map.mpr ⟨r, hr, hrx⟩)
          simp [this])]
      rw [resultIds_cons_some next c cs x hc, newRows_cons_some billId next c cs x hc,
        expectedRows_cons]
      refine List.Perm.trans (List.Perm.append_right _
        (hperm0.map (applyAll billId (c :: cs)))) ?_
      rw [List.map_cons, hg0, List.cons_append]
      refine List.Perm.cons _ ?_
      rw [List.map_congr_left hgrest]
      refine ih next rest hrestids ?_ ?_ hanodup2.2
      · intro r hr
        exact hbid r (hrestsub r hr)
      · exact (List.nodup_cons.mp hnodup2).2

/-! ### Properties of the bill upsert and of the whole save -/

theorem find?_map_local {A B : Type} (f : A → B) (l : List A) (p : B → Bool) :
    (l.map f).find? p = (l.find? (fun a => p (f a))).map f := by
  induction l with
  | nil => rfl
  | cons a t ih =>
    rw [List.map_cons, List.find?_cons, List.find?_cons]
    cases h : p (f a)
    · exact ih
    · rfl

/-- The upsert leaves every table other than monthly_bills untouched. -/
theorem upsertBill_expenses (st : Store) (userId : Nat) (input : BillInput) :
    (upsertBill st userId input).2.expenses = st.expenses := by
  unfold upsertBill
  cases st.bills.find? (fun b => billKeyMatches b input.renterId input.month input.year)
  · rfl
  · rfl

theorem upsertBill_payments (st : Store) (userId : Nat) (input : BillInput) :
    (upsertBill st userId input).2.payments = st.payments := by
  unfold upsertBill
  cases st.bills.find? (fun b => billKeyMatches b input.renterId input.month input.year)
  · rfl
  · rfl

/-- The upsert result only depends on the bills table and the fresh
counter. -/
theorem upsertBill_fst_congr (st st' : Store) (userId : Nat) (input : BillInput)
    (hb : st.bills = st'.bills) (hn : st.nextId = st'.nextId) :
    (upsertBill st userId input).1 = (upsertBill st' userId input).1 := by
  unfold upsertBill
  rw [hb, hn]
  cases st'.bills.find? (fun b => billKeyMatches b input.renterId input.month input.year)
  · rfl
  · rfl

/-- The id returned by the upsert when a keyed row is found. -/
theorem upsertBill_fst_of_find_some (st : Store) (userId : Nat)
    (input : BillInput) (b : BillRow)
    (hf : st.bills.find?
      (fun r => billKeyMatches r input.renterId input.month input.year) = some b) :
    (upsertBill st userId input).1 = b.id := by
  unfold upsertBill
  rw [hf]

/-- Re-upserting the same bill input finds the row the first upsert
affected and returns the same id. -/
theorem upsertBill_stable (st : Store) (userId : Nat) (input : BillInput) :
    (upsertBill (upsertBill st userId input).2 userId input).1 =
      (upsertBill st userId input).1 := by
  cases hf : st.bills.find?
      (fun b => billKeyMatches b input.renterId input.month input.year) with
  | some b =>
    have h2 : (upsertBill st userId input).2.bills = st.bills.map (fun r =>
        if billKeyMatches r input.renterId input.month input.year then
          { r with fields := input.fields } else r) := by
      unfold upsertBill
      rw [hf]
    have h1 : (upsertBill st userId input).1 = b.id := by
      unfold upsertBill
      rw [hf]
    have hpres : ∀ r : BillRow,
        billKeyMatches (if billKeyMatches r input.renterId input.month input.year then
          { r with fields := input.fields } else r) input.renterId input.month
          input.year = billKeyMatches r input.renterId input.month input.year := by
      intro r
      by_cases h : billKeyMatches r input.renterId input.month input.year = true
      · rw [if_pos h]
        rfl
      · rw [if_neg h]
    have hfind : (upsertBill st userId input).2.bills.find?
        (fun r => billKeyMatches r input.renterId input.month input.year) =
        some { b with fields := input.fields } := by
      rw [h2, find?_map_local]
      rw [find?_congr_local st.bills _ _ (fun r => hpres r)]
      rw [hf]
      have hbk := List.find?_some hf
      simp [hbk]
    rw [upsertBill_fst_of_find_some _ userId input _ hfind, h1]
  | none =>
    have h2 : (upsertBill st userId input).2.bills = st.bills ++
        [⟨st.nextId, userId, input.renterId, input.month, input.year, input.fields⟩] := by
      unfold upsertBill
      rw [hf]
    have h1 : (upsertBill st userId input).1 = st.nextId := by
      unfold upsertBill
      rw [hf]
    have hfind : (upsertBill st userId input).2.bills.find?
        (fun r => billKeyMatches r input.renterId input.month input.year) =
        some ⟨st.nextId, userId, input.renterId, input.month, input.year,
          input.fields⟩ := by
      rw [h2, List.find?_append, hf]
      simp [billKeyMatches]
    rw [upsertBill_fst_of_find_some _ userId input _ hfind, h1]

/-- Normal form of save_bill_complete when every incoming child carries an
assigned identity: no insert happens, the fresh counter does not move, and
the returned identity lists are the assigned identities in input order. -/
theorem save_all_assigned (st : Store) (billData : BillInput)
    (expensesIn : List (ChildIn ExpenseFields))
    (paymentsIn : List (ChildIn PaymentFields)) (userId : Nat)
    (hE : ∀ c ∈ expensesIn, c.id.isSome = true)
    (hP : ∀ c ∈ paymentsIn, c.id.isSome = true) :
    save_bill_complete st billData expensesIn paymentsIn userId =
      (⟨(upsertBill st userId billData).1, assignedIds expensesIn,
        assignedIds paymentsIn, true⟩,
       ⟨(upsertBill st userId billData).2.renters,
        (upsertBill st userId billData).2.bills,
        (deleteStale (upsertBill st userId billData).2.expenses
          (upsertBill st userId billData).1 (assignedIds expensesIn)).map
          (applyAll (upsertBill st userId billData).1 expensesIn),
        (deleteStale (upsertBill st userId billData).2.payments
          (upsertBill st userId billData).1 (assignedIds paymentsIn)).map
          (applyAll (upsertBill st userId billData).1 paymentsIn),
        (upsertBill st userId billData).2.nextId⟩) := by
  simp only [save_bill_complete]
  rw [processChildren_all_assigned _ expensesIn _ _ hE]
  rw [processChildren_all_assigned _ paymentsIn _ _ hP]

/-- A row produced by delete-then-update still survives the delete
predicate. -/
theorem deleteStale_apply_fixed {beta : Type} (rows0 : List (ChildRow beta))
    (billId : Nat) (assigned : List Nat) (inc : List (ChildIn beta)) :
    deleteStale ((deleteStale rows0 billId assigned).map (applyAll billId inc))
        billId assigned =
      (deleteStale rows0 billId assigned).map (applyAll billId inc) := by
  unfold deleteStale
  rw [List.filter_eq_self]
  intro r hr
  obtain ⟨r0, hr0, hrr⟩ := List.mem_map.mp hr
  have hkeep := (List.mem_filter.mp hr0).2
  rw [← hrr, applyAll_id, applyAll_bid]
  exact hkeep

/-- Applying the whole loop of updates twice equals applying it once. -/
theorem map_applyAll_idem {beta : Type} (billId : Nat)
    (inc : List (ChildIn beta)) (rows : List (ChildRow beta)) :
    (rows.map (applyAll billId inc)).map (applyAll billId inc) =
      rows.map (applyAll billId inc) := by
  rw [List.map_map]
  apply List.map_congr_left
  intro r _
  exact applyAll_idem billId inc r

/-- Claim C4: reconciliation is idempotent for aggregates whose children
all carry assigned identities: saving twice returns the same billId, the
same identity lists and the same success flag, and the store's child
tables after the second save equal those after the first. -/
theorem save_bill_complete_idempotent (st : Store) (billData : BillInput)
    (expensesIn : List (ChildIn ExpenseFields))
    (paymentsIn : List (ChildIn PaymentFields)) (userId : Nat)
    (hE : ∀ c ∈ expensesIn, c.id.isSome = true)
    (hP : ∀ c ∈ paymentsIn, c.id.isSome = true) :
    (save_bill_complete (save_bill_complete st billData expensesIn paymentsIn
        userId).2 billData expensesIn paymentsIn userId).1 =
      (save_bill_complete st billData expensesIn paymentsIn userId).1 ∧
    (save_bill_complete (save_bill_complete st billData expensesIn paymentsIn
        userId).2 billData expensesIn paymentsIn userId).2.expenses =
      (save_bill_complete st billData expensesIn paymentsIn userId).2.expenses ∧
    (save_bill_complete (save_bill_complete st billData expensesIn paymentsIn
        userId).2 billData expensesIn paymentsIn userId).2.payments =
      (save_bill_complete st billData expensesIn paymentsIn userId).2.payments := by
  rw [save_all_assigned st billData expensesIn paymentsIn userId hE hP]
  rw [save_all_assigned _ billData expensesIn paymentsIn userId hE hP]
  have hB : (upsertBill
      (⟨(upsertBill st userId billData).2.renters,
        (upsertBill st userId billData).2.bills,
        (deleteStale (upsertBill st userId billData).2.expenses
          (upsertBill st userId billData).1 (assignedIds expensesIn)).map
          (applyAll (upsertBill st userId billData).1 expensesIn),
        (deleteStale (upsertBill st userId billData).2.payments
          (upsertBill st userId billData).1 (assignedIds paymentsIn)).map
          (applyAll (upsertBill st userId billData).1 paymentsIn),
        (upsertBill st userId billData).2.nextId⟩ : Store) userId billData).1 =
      (upsertBill st userId billData).1 := by
    have e1 := upsertBill_fst_congr
      (⟨(upsertBill st userId billData).2.renters,
        (upsertBill st userId billData).2.bills,
        (deleteStale (upsertBill st userId billData).2.expenses
          (upsertBill st userId billData).1 (assignedIds expensesIn)).map
          (applyAll (upsertBill st userId billData).1 expensesIn),
        (deleteStale (upsertBill st userId billData).2.payments
          (upsertBill st userId billData).1 (assignedIds paymentsIn)).map
          (applyAll (upsertBill st userId billData).1 paymentsIn),
        (upsertBill st userId billData).2.nextId⟩ : Store)
      (upsertBill st userId billData).2 userId billData rfl rfl
    rw [e1]
    exact upsertBill_stable st userId billData
  refine ⟨?_, ?_, ?_⟩
  · rw [hB]
  · rw [hB]
    simp only [upsertBill_expenses]
    rw [deleteStale_apply_fixed, map_applyAll_idem]
  · rw [hB]
    simp only [upsertBill_payments]
    rw [deleteStale_apply_fixed, map_applyAll_idem]

/-- A throwaway bill-fields value for the concrete test stores. -/
def testFields : BillFields :=
  ⟨0, false, 0, 0, 0, 0, 0, false, 0, 0, 0, 0, 0, 0, false, 0, false, 0, 0, 0, 0⟩

/-- Witness for C4: a store holding bill 1 with one assigned expense and
one assigned payment; saving the same aggregate twice is idempotent. -/
theorem save_bill_complete_idempotent_witness :
    (∀ c ∈ [(⟨some 2, ⟨"lamp", 30, 11⟩⟩ : ChildIn ExpenseFields)],
      c.id.isSome = true) ∧
    (save_bill_complete (save_bill_complete
        ⟨[⟨7, 10⟩], [⟨1, 10, 7, 3, 2025, testFields⟩],
         [⟨2, 1, ⟨"lamp", 20, 5⟩⟩], [⟨3, 1, ⟨100, 6, "cash", ""⟩⟩], 4⟩
        ⟨7, 3, 2025, testFields⟩
        [⟨some 2, ⟨"lamp", 30, 11⟩⟩] [⟨some 3, ⟨150, 12, "online", "n"⟩⟩] 10).2
      ⟨7, 3, 2025, testFields⟩
      [⟨some 2, ⟨"lamp", 30, 11⟩⟩] [⟨some 3, ⟨150, 12, "online", "n"⟩⟩] 10).1 =
    (save_bill_complete
        ⟨[⟨7, 10⟩], [⟨1, 10, 7, 3, 2025, testFields⟩],
         [⟨2, 1, ⟨"lamp", 20, 5⟩⟩], [⟨3, 1, ⟨100, 6, "cash", ""⟩⟩], 4⟩
        ⟨7, 3, 2025, testFields⟩
        [⟨some 2, ⟨"lamp", 30, 11⟩⟩] [⟨some 3, ⟨150, 12, "online", "n"⟩⟩] 10).1 := by
  constructor
  · intro c hc
    simp only [List.mem_singleton] at hc
    subst hc
    rfl
  · exact (save_bill_complete_idempotent
      ⟨[⟨7, 10⟩], [⟨1, 10, 7, 3, 2025, testFields⟩],
       [⟨2, 1, ⟨"lamp", 20, 5⟩⟩], [⟨3, 1, ⟨100, 6, "cash", ""⟩⟩], 4⟩
      ⟨7, 3, 2025, testFields⟩
      [⟨some 2, ⟨"lamp", 30, 11⟩⟩] [⟨some 3, ⟨150, 12, "online", "n"⟩⟩] 10
      (by intro c hc; simp only [List.mem_singleton] at hc; subst hc; rfl)
      (by intro c hc; simp only [List.mem_singleton] at hc; subst hc; rfl)).1

/-! ### The exact-match guarantee of the reconciliation writer (C1) -/

theorem filter_map_comm {beta : Type} (f : ChildRow beta → ChildRow beta)
    (p : ChildRow beta → Bool) (rows : List (ChildRow beta))
    (h : ∀ r, p (f r) = p r) :
    (rows.map f).filter p = (rows.filter p).map f := by
  induction rows with
  | nil => rfl
  | cons a t ih =>
    rw [List.map_cons, List.filter_cons, List.filter_cons, h a]
    cases p a
    · simpa using ih
    · simp [ih]

theorem newRows_bid {beta : Type} (billId next : Nat)
    (inc : List (ChildIn beta)) :
    ∀ r ∈ newRows billId next inc, r.monthlyBillId = billId := by
  induction inc generalizing next with
  | nil => intro r hr; simp [newRows] at hr
  | cons c cs ih =>
    intro r hr
    cases hc : c.id with
    | some x =>
      rw [newRows_cons_some billId next c cs x hc] at hr
      exact ih next r hr
    | none =>
      rw [newRows_cons_none billId next c cs hc] at hr
      rcases List.mem_cons.mp hr with hr | hr
      · subst hr; rfl
      · exact ih (next + 1) r hr

theorem newRows_id_ge {beta : Type} (billId next : Nat)
    (inc : List (ChildIn beta)) :
    ∀ r ∈ newRows billId next inc, next ≤ r.id := by
  induction inc generalizing next with
  | nil => intro r hr; simp [newRows] at hr
  | cons c cs ih =>
    intro r hr
    cases hc : c.id with
    | some x =>
      rw [newRows_cons_some billId next c cs x hc] at hr
      exact ih next r hr
    | none =>
      rw [newRows_cons_none billId next c cs hc] at hr
      rcases List.mem_cons.mp hr with hr | hr
      · subst hr; exact Nat.le_refl next
      · have := ih (next + 1) r hr
        omega

/-- The surviving filtered rows of the bill are exactly the rows whose id
is among the incoming assigned identities. -/
theorem deleteStale_filter_bid {beta : Type} (rows : List (ChildRow beta))
    (billId : Nat) (assigned : List Nat) :
    (deleteStale rows billId assigned).filter
        (fun r => r.monthlyBillId == billId) =
      rows.filter (fun r => r.monthlyBillId == billId && assigned.contains r.id) := by
  unfold deleteStale
  rw [List.filter_filter]
  apply List.filter_congr
  intro r _
  cases hb : (r.monthlyBillId == billId)
  · simp
  · simp

/-- One-sided reconciliation: for either child table, under unique store
identities and incoming assigned identities that are distinct and present
on the bill, the rows attached to the bill after delete-update-insert are,
up to order, exactly one row per incoming child carrying the returned
identity and the incoming fields; all returned identities are distinct,
one per incoming child; and a store row of this bill whose id was not
among the assigned identities is gone. -/
theorem reconcile_side {beta : Type} [DecidableEq beta]
    (tableRows : List (ChildRow beta)) (billId nextId0 next : Nat)
    (inc : List (ChildIn beta))
    (hNodup : (tableRows.map (fun r => r.id)).Nodup)
    (hLt : ∀ r ∈ tableRows, r.id < nextId0)
    (hle : nextId0 ≤ next)
    (hANodup : (assignedIds inc).Nodup)
    (hEx : ∀ x ∈ assignedIds inc,
      ∃ r, r ∈ tableRows ∧ r.id = x ∧ r.monthlyBillId = billId) :
    ((resultIds next inc).length = inc.length) ∧
    (resultIds next inc).Nodup ∧
    List.Perm
      (((deleteStale tableRows billId (assignedIds inc)).map (applyAll billId inc)
        ++ newRows billId next inc).filter (fun r => r.monthlyBillId == billId))
      (expectedRows billId (resultIds next inc) inc) ∧
    (∀ r ∈ tableRows, r.monthlyBillId = billId → r.id ∉ assignedIds inc →
      ∀ r2 ∈ (deleteStale tableRows billId (assignedIds inc)).map
          (applyAll billId inc) ++ newRows billId next inc, r2.id ≠ r.id) := by
  have hAlt : ∀ x ∈ assignedIds inc, x < next := by
    intro x hx
    obtain ⟨r, hr, hrid, _⟩ := hEx x hx
    have := hLt r hr
    omega
  refine ⟨resultIds_length next inc, resultIds_nodup next inc hANodup hAlt, ?_, ?_⟩
  · rw [List.filter_append]
    rw [filter_map_comm (applyAll billId inc) _
      (deleteStale tableRows billId (assignedIds inc))
      (fun r => by rw [applyAll_bid])]
    rw [deleteStale_filter_bid]
    have hnewfilter : (newRows billId next inc).filter
        (fun r => r.monthlyBillId == billId) = newRows billId next inc :=
      List.filter_eq_self.mpr (fun r hr => by
        simp [newRows_bid billId next inc r hr])
    rw [hnewfilter]
    set rowsB := tableRows.filter
      (fun r => r.monthlyBillId == billId && (assignedIds inc).contains r.id)
      with hrowsB
    have hsub : rowsB.Sublist tableRows := List.filter_sublist tableRows
    have hNodupB : (rowsB.map (fun r => r.id)).Nodup :=
      (hsub.map (fun r => r.id)).nodup hNodup
    have hmemiff : ∀ z, z ∈ rowsB.map (fun r => r.id) ↔ z ∈ assignedIds inc := by
      intro z
      constructor
      · intro hz
        obtain ⟨r, hr, hrz⟩ := List.mem_map.mp hz
        have hcond := (List.mem_filter.mp hr).2
        simp at hcond
        rw [← hrz]
        exact hcond.2
      · intro hz
        obtain ⟨r, hr, hrid, hrbid⟩ := hEx z hz
        refine List.mem_map.mpr ⟨r, ?_, hrid⟩
        refine List.mem_filter.mpr ⟨hr, ?_⟩
        simp [hrbid, hrid, hz]
    have hids : List.Perm (rowsB.map (fun r => r.id)) (assignedIds inc) :=
      (List.perm_ext_iff_of_nodup hNodupB hANodup).mpr hmemiff
    have hbidB : ∀ r ∈ rowsB, r.monthlyBillId = billId := by
      intro r hr
      have := (List.mem_filter.mp hr).2
      simp at this
      exact this.1
    exact reconcile_perm billId inc next rowsB hids hbidB hNodupB hANodup
  · intro r hr hbid hnotin r2 hr2 hid
    rcases List.mem_append.mp hr2 with hr2 | hr2
    · obtain ⟨r0, hr0, hrr⟩ := List.mem_map.mp hr2
      have hr0sub : r0 ∈ tableRows := (List.filter_sublist tableRows).mem hr0
      have hr0id : r0.id = r.id := by rw [← hid, ← hrr, applyAll_id]
      have : r0 = r :=
        List.inj_on_of_nodup_map hNodup hr0sub hr hr0id
      subst this
      have hkeep := (List.mem_filter.mp hr0).2
      unfold deleteStale at hr0
      have hkeep2 := (List.mem_filter.mp hr0).2
      rw [hbid] at hkeep2
      simp at hkeep2
      exact hnotin hkeep2
    · have h1 := newRows_id_ge billId next inc r2 hr2
      have h2 := hLt r hr
      omega

/-- The upsert never lowers the fresh counter. -/
theorem upsertBill_nextId_ge (st : Store) (userId : Nat) (input : BillInput) :
    st.nextId ≤ (upsertBill st userId input).2.nextId := by
  unfold upsertBill
  cases st.bills.find? (fun b => billKeyMatches b input.renterId input.month input.year)
  · exact Nat.le_succ st.nextId
  · exact Nat.le_refl st.nextId

/-- Normal form of save_bill_complete when the incoming assigned
identities lie below the store's fresh counter. -/
theorem save_decomp (st : Store) (billData : BillInput)
    (expensesIn : List (ChildIn ExpenseFields))
    (paymentsIn : List (ChildIn PaymentFields)) (userId : Nat)
    (hAE : ∀ x ∈ assignedIds expensesIn, x < st.nextId)
    (hLtE : ∀ r ∈ st.expenses, r.id < st.nextId)
    (hAP : ∀ x ∈ assignedIds paymentsIn, x < st.nextId)
    (hLtP : ∀ r ∈ st.payments, r.id < st.nextId) :
    save_bill_complete st billData expensesIn paymentsIn userId =
      (⟨(upsertBill st userId billData).1,
        resultIds (upsertBill st userId billData).2.nextId expensesIn,
        resultIds ((upsertBill st userId billData).2.nextId + numNew expensesIn)
          paymentsIn, true⟩,
       ⟨(upsertBill st userId billData).2.renters,
        (upsertBill st userId billData).2.bills,
        (deleteStale (upsertBill st userId billData).2.expenses
          (upsertBill st userId billData).1 (assignedIds expensesIn)).map
          (applyAll (upsertBill st userId billData).1 expensesIn) ++
          newRows (upsertBill st userId billData).1
            (upsertBill st userId billData).2.nextId expensesIn,
        (deleteStale (upsertBill st userId billData).2.payments
          (upsertBill st userId billData).1 (assignedIds paymentsIn)).map
          (applyAll (upsertBill st userId billData).1 paymentsIn) ++
          newRows (upsertBill st userId billData).1
            ((upsertBill st userId billData).2.nextId + numNew expensesIn)
            paymentsIn,
        (upsertBill st userId billData).2.nextId + numNew expensesIn +
          numNew paymentsIn⟩) := by
  have hge := upsertBill_nextId_ge st userId billData
  have hinE : ∀ c ∈ expensesIn, ∀ x, c.id = some x →
      x < (upsertBill st userId billData).2.nextId := by
    intro c hc x hx
    have : x ∈ assignedIds expensesIn := List.mem_filterMap.mpr ⟨c, hc, hx⟩
    have := hAE x this
    omega
  have hrowsE : ∀ r ∈ deleteStale (upsertBill st userId billData).2.expenses
      (upsertBill st userId billData).1 (assignedIds expensesIn),
      r.id < (upsertBill st userId billData).2.nextId := by
    intro r hr
    have hr2 : r ∈ (upsertBill st userId billData).2.expenses :=
      (List.filter_sublist _).mem hr
    rw [upsertBill_expenses] at hr2
    have := hLtE r hr2
    omega
  have hinP : ∀ c ∈ paymentsIn, ∀ x, c.id = some x →
      x < (upsertBill st userId billData).2.nextId + numNew expensesIn := by
    intro c hc x hx
    have : x ∈ assignedIds paymentsIn := List.mem_filterMap.mpr ⟨c, hc, hx⟩
    have := hAP x this
    omega
  have hrowsP : ∀ r ∈ deleteStale (upsertBill st userId billData).2.payments
      (upsertBill st userId billData).1 (assignedIds paymentsIn),
      r.id < (upsertBill st userId billData).2.nextId + numNew expensesIn := by
    intro r hr
    have hr2 : r ∈ (upsertBill st userId billData).2.payments :=
      (List.filter_sublist _).mem hr
    rw [upsertBill_payments] at hr2
    have := hLtP r hr2
    omega
  have hpe := processChildren_decomp (upsertBill st userId billData).1 expensesIn
    (deleteStale (upsertBill st userId billData).2.expenses
      (upsertBill st userId billData).1 (assignedIds expensesIn))
    (upsertBill st userId billData).2.nextId hinE hrowsE
  have hpp := processChildren_decomp (upsertBill st userId billData).1 paymentsIn
    (deleteStale (upsertBill st userId billData).2.payments
      (upsertBill st userId billData).1 (assignedIds paymentsIn))
    ((upsertBill st userId billData).2.nextId + numNew expensesIn) hinP hrowsP
  simp only [save_bill_complete, hpe, hpp]

/-- Default expense payload (used only as a getD fallback). -/
def dummyExpense : ChildIn ExpenseFields := ⟨none, ⟨"", 0, 0⟩⟩

/-- Default payment payload (used only as a getD fallback). -/
def dummyPayment : ChildIn PaymentFields := ⟨none, ⟨0, 0, "", ""⟩⟩

/-- Amended claim C1: when the incoming assigned identities are pairwise
distinct and each is currently attached to the resulting bill in the
store (and the store's child identities are unique and below the fresh
counter), a successful save leaves the bill's child rows exactly matching
the incoming lists: one row per incoming child (up to row order), fresh
identities for the previously unassigned children, overwritten fields for
the assigned ones, every other child of the bill deleted, and the
returned identity lists have exactly one identity per incoming item in
input order. -/
theorem save_bill_complete_exact_match (st : Store) (billData : BillInput)
    (expensesIn : List (ChildIn ExpenseFields))
    (paymentsIn : List (ChildIn PaymentFields)) (userId : Nat)
    (hNodupE : (st.expenses.map (fun r => r.id)).Nodup)
    (hNodupP : (st.payments.map (fun r => r.id)).Nodup)
    (hLtE : ∀ r ∈ st.expenses, r.id < st.nextId)
    (hLtP : ∀ r ∈ st.payments, r.id < st.nextId)
    (hANodupE : (assignedIds expensesIn).Nodup)
    (hANodupP : (assignedIds paymentsIn).Nodup)
    (hExE : ∀ x ∈ assignedIds expensesIn, ∃ r, r ∈ st.expenses ∧ r.id = x ∧
      r.monthlyBillId = (upsertBill st userId billData).1)
    (hExP : ∀ x ∈ assignedIds paymentsIn, ∃ r, r ∈ st.payments ∧ r.id = x ∧
      r.monthlyBillId = (upsertBill st userId billData).1) :
    (save_bill_complete st billData expensesIn paymentsIn userId).1.success = true ∧
    (save_bill_complete st billData expensesIn paymentsIn
        userId).1.expenseIds.length = expensesIn.length ∧
    (save_bill_complete st billData expensesIn paymentsIn
        userId).1.paymentIds.length = paymentsIn.length ∧
    (∀ i x, i < expensesIn.length → (expensesIn.getD i dummyExpense).id = some x →
      (save_bill_complete st billData expensesIn paymentsIn
        userId).1.expenseIds.getD i 0 = x) ∧
    (∀ i x, i < paymentsIn.length → (paymentsIn.getD i dummyPayment).id = some x →
      (save_bill_complete st billData expensesIn paymentsIn
        userId).1.paymentIds.getD i 0 = x) ∧
    (save_bill_complete st billData expensesIn paymentsIn
        userId).1.expenseIds.Nodup ∧
    (save_bill_complete st billData expensesIn paymentsIn
        userId).1.paymentIds.Nodup ∧
    List.Perm
      ((save_bill_complete st billData expensesIn paymentsIn
        userId).2.expenses.filter (fun r => r.monthlyBillId ==
          (save_bill_complete st billData expensesIn paymentsIn userId).1.billId))
      (expectedRows
        (save_bill_complete st billData expensesIn paymentsIn userId).1.billId
        (save_bill_complete st billData expensesIn paymentsIn
          userId).1.expenseIds expensesIn) ∧
    List.Perm
      ((save_bill_complete st billData expensesIn paymentsIn
        userId).2.payments.filter (fun r => r.monthlyBillId ==
          (save_bill_complete st billData expensesIn paymentsIn userId).1.billId))
      (expectedRows
        (save_bill_complete st billData expensesIn paymentsIn userId).1.billId
        (save_bill_complete st billData expensesIn paymentsIn
          userId).1.paymentIds paymentsIn) ∧
    (∀ r ∈ st.expenses, r.monthlyBillId =
        (save_bill_complete st billData expensesIn paymentsIn userId).1.billId →
      r.id ∉ assignedIds expensesIn →
      ∀ r2 ∈ (save_bill_complete st billData expensesIn paymentsIn
        userId).2.expenses, r2.id ≠ r.id) ∧
    (∀ r ∈ st.payments, r.monthlyBillId =
        (save_bill_complete st billData expensesIn paymentsIn userId).1.billId →
      r.id ∉ assignedIds paymentsIn →
      ∀ r2 ∈ (save_bill_complete st billData expensesIn paymentsIn
        userId).2.payments, r2.id ≠ r.id) := by
  have hAE : ∀ x ∈ assignedIds expensesIn, x < st.nextId := by
    intro x hx
    obtain ⟨r, hr, hrid, _⟩ := hExE x hx
    have := hLtE r hr
    omega
  have hAP : ∀ x ∈ assignedIds paymentsIn, x < st.nextId := by
    intro x hx
    obtain ⟨r, hr, hrid, _⟩ := hExP x hx
    have := hLtP r hr
    omega
  have hd := save_decomp st billData expensesIn paymentsIn userId hAE hLtE hAP hLtP
  have hge := upsertBill_nextId_ge st userId billData
  have hsideE := reconcile_side st.expenses (upsertBill st userId billData).1
    st.nextId (upsertBill st userId billData).2.nextId expensesIn
    hNodupE hLtE hge hANodupE hExE
  have hsideP := reconcile_side st.payments (upsertBill st userId billData).1
    st.nextId ((upsertBill st userId billData).2.nextId + numNew expensesIn)
    paymentsIn hNodupP hLtP (by omega) hANodupP hExP
  rw [hd]
  simp only [upsertBill_expenses, upsertBill_payments]
  exact ⟨trivial, hsideE.1, hsideP.1,
    fun i x hi hx => resultIds_getD_assigned _ expensesIn dummyExpense i hi x hx,
    fun i x hi hx => resultIds_getD_assigned _ paymentsIn dummyPayment i hi x hx,
    hsideE.2.1, hsideP.2.1, hsideE.2.2.1, hsideP.2.2.1,
    hsideE.2.2.2, hsideP.2.2.2⟩

/-- Counterexample to claim C1 as stated: an incoming expense carrying an
assigned identity (7) that is attached to no store row is counted in the
returned identity list, yet its row is neither inserted nor updated; the
save still reports success while the store holds no child row at all for
the bill, so the store does not match the one-element incoming list. -/
theorem save_bill_complete_exact_match_cex :
    (save_bill_complete ⟨[], [], [], [], 100⟩ ⟨7, 3, 2025, testFields⟩
      [⟨some 7, ⟨"ghost", 5, 1⟩⟩] [] 10).1.success = true ∧
    (save_bill_complete ⟨[], [], [], [], 100⟩ ⟨7, 3, 2025, testFields⟩
      [⟨some 7, ⟨"ghost", 5, 1⟩⟩] [] 10).1.expenseIds = [7] ∧
    (save_bill_complete ⟨[], [], [], [], 100⟩ ⟨7, 3, 2025, testFields⟩
      [⟨some 7, ⟨"ghost", 5, 1⟩⟩] [] 10).2.expenses = [] ∧
    [(⟨some 7, ⟨"ghost", 5, 1⟩⟩ : ChildIn ExpenseFields)].length = 1 := by
  decide

/-- Witness for the amended C1 at a concrete store: bill 1 holds expenses
2 and 5 and payment 3; saving expenses [assigned 2, fresh] and payments
[assigned 3] succeeds, returns one identity per item, and the bill's rows
match the incoming lists exactly (expense 5 deleted, the fresh expense
inserted with identity 6). -/
theorem save_bill_complete_exact_match_witness :
    (save_bill_complete
        ⟨[⟨7, 10⟩], [⟨1, 10, 7, 3, 2025, testFields⟩],
         [⟨2, 1, ⟨"old", 20, 5⟩⟩, ⟨5, 1, ⟨"gone", 9, 4⟩⟩],
         [⟨3, 1, ⟨100, 6, "cash", ""⟩⟩], 6⟩
        ⟨7, 3, 2025, testFields⟩
        [⟨some 2, ⟨"kept", 30, 11⟩⟩, ⟨none, ⟨"fresh", 8, 12⟩⟩]
        [⟨some 3, ⟨150, 12, "online", "n"⟩⟩] 10).1.success = true ∧
    (save_bill_complete
        ⟨[⟨7, 10⟩], [⟨1, 10, 7, 3, 2025, testFields⟩],
         [⟨2, 1, ⟨"old", 20, 5⟩⟩, ⟨5, 1, ⟨"gone", 9, 4⟩⟩],
         [⟨3, 1, ⟨100, 6, "cash", ""⟩⟩], 6⟩
        ⟨7, 3, 2025, testFields⟩
        [⟨some 2, ⟨"kept", 30, 11⟩⟩, ⟨none, ⟨"fresh", 8, 12⟩⟩]
        [⟨some 3, ⟨150, 12, "online", "n"⟩⟩] 10).1.expenseIds.length = 2 ∧
    List.Perm
      ((save_bill_complete
        ⟨[⟨7, 10⟩], [⟨1, 10, 7, 3, 2025, testFields⟩],
         [⟨2, 1, ⟨"old", 20, 5⟩⟩, ⟨5, 1, ⟨"gone", 9, 4⟩⟩],
         [⟨3, 1, ⟨100, 6, "cash", ""⟩⟩], 6⟩
        ⟨7, 3, 2025, testFields⟩
        [⟨some 2, ⟨"kept", 30, 11⟩⟩, ⟨none, ⟨"fresh", 8, 12⟩⟩]
        [⟨some 3, ⟨150, 12, "online", "n"⟩⟩] 10).2.expenses.filter
          (fun r => r.monthlyBillId ==
            (save_bill_complete
              ⟨[⟨7, 10⟩], [⟨1, 10, 7, 3, 2025, testFields⟩],
               [⟨2, 1, ⟨"old", 20, 5⟩⟩, ⟨5, 1, ⟨"gone", 9, 4⟩⟩],
               [⟨3, 1, ⟨100, 6, "cash", ""⟩⟩], 6⟩
              ⟨7, 3, 2025, testFields⟩
              [⟨some 2, ⟨"kept", 30, 11⟩⟩, ⟨none, ⟨"fresh", 8, 12⟩⟩]
              [⟨some 3, ⟨150, 12, "online", "n"⟩⟩] 10).1.billId))
      (expectedRows
        (save_bill_complete
          ⟨[⟨7, 10⟩], [⟨1, 10, 7, 3, 2025, testFields⟩],
           [⟨2, 1, ⟨"old", 20, 5⟩⟩, ⟨5, 1, ⟨"gone", 9, 4⟩⟩],
           [⟨3, 1, ⟨100, 6, "cash", ""⟩⟩], 6⟩
          ⟨7, 3, 2025, testFields⟩
          [⟨some 2, ⟨"kept", 30, 11⟩⟩, ⟨none, ⟨"fresh", 8, 12⟩⟩]
          [⟨some 3, ⟨150, 12, "online", "n"⟩⟩] 10).1.billId
        (save_bill_complete
          ⟨[⟨7, 10⟩], [⟨1, 10, 7, 3, 2025, testFields⟩],
           [⟨2, 1, ⟨"old", 20, 5⟩⟩, ⟨5, 1, ⟨"gone", 9, 4⟩⟩],
           [⟨3, 1, ⟨100, 6, "cash", ""⟩⟩], 6⟩
          ⟨7, 3, 2025, testFields⟩
          [⟨some 2, ⟨"kept", 30, 11⟩⟩, ⟨none, ⟨"fresh", 8, 12⟩⟩]
          [⟨some 3, ⟨150, 12, "online", "n"⟩⟩] 10).1.expenseIds
        [⟨some 2, ⟨"kept", 30, 11⟩⟩, ⟨none, ⟨"fresh", 8, 12⟩⟩]) := by
  have h := save_bill_complete_exact_match
    ⟨[⟨7, 10⟩], [⟨1, 10, 7, 3, 2025, testFields⟩],
     [⟨2, 1, ⟨"old", 20, 5⟩⟩, ⟨5, 1, ⟨"gone", 9, 4⟩⟩],
     [⟨3, 1, ⟨100, 6, "cash", ""⟩⟩], 6⟩
    ⟨7, 3, 2025, testFields⟩
    [⟨some 2, ⟨"kept", 30, 11⟩⟩, ⟨none, ⟨"fresh", 8, 12⟩⟩]
    [⟨some 3, ⟨150, 12, "online", "n"⟩⟩] 10
    (by decide) (by decide) (by decide) (by decide) (by decide) (by decide)
    (by decide) (by decide)
  exact ⟨h.1, h.2.1, h.2.2.2.2.2.2.2.1⟩

/-! ### Aggregate fetcher

Service reads (supabaseService.ts) and the combined RPC of
src/unnamed/part_000. The authenticated user's id is passed in as
userId; every catch block of the service that logs and returns null or an
empty list is modelled by the corresponding total function. -/

/-- The carry-forward snapshot previous_readings. -/
structure PreviousReadings where
  electricity_final : Int
  motor_final : Int
deriving DecidableEq, Repr

/-- The aggregate BillWithDetails returned by getBillWithDetails. -/
structure BillWithDetails where
  bill : Option BillRow
  expenses : List (ChildRow ExpenseFields)
  payments : List (ChildRow PaymentFields)
  previous_readings : PreviousReadings
deriving DecidableEq, Repr

/-- getMonthlyBill (supabaseService.ts lines 390-423): first verify the
renter belongs to the user; the 'Renter not found or access denied' throw
is caught by the function's own catch, which returns null, as does any
query error; otherwise look up the bill row by renter, user, month and
year. -/
def getMonthlyBill (st : Store) (userId : Nat) (renterId month year : Int) :
    Option BillRow :=
  if st.renters.any (fun r => r.id == renterId && r.userId == userId) then
    st.bills.find? (fun b => b.renterId == renterId && b.userId == userId &&
      b.month == month && b.year == year)
  else none

/-- The previous-period key as computed by getPreviousMonthBill
(supabaseService.ts lines 425-440). -/
def tsPrevPeriod (month year : Int) : Int × Int :=
  let prevMonth := month - 1
  if prevMonth = 0 then (12, year - 1) else (prevMonth, year)

/-- getPreviousMonthBill (lines 425-440). -/
def getPreviousMonthBill (st : Store) (userId : Nat) (renterId month year : Int) :
    Option BillRow :=
  getMonthlyBill st userId renterId (tsPrevPeriod month year).1
    (tsPrevPeriod month year).2

/-- getAdditionalExpenses (lines 471-488): all expense rows of the bill
(the created_at ordering is irrelevant to the claims and kept as store
order); errors are caught and yield the empty list. -/
def getAdditionalExpenses (st : Store) (billId : Nat) :
    List (ChildRow ExpenseFields) :=
  st.expenses.filter (fun e => e.monthlyBillId == billId)

/-- getBillPayments (lines 520-537). -/
def getBillPayments (st : Store) (billId : Nat) : List (ChildRow PaymentFields) :=
  st.payments.filter (fun p => p.monthlyBillId == billId)

/-- The previous-period key as computed by the RPC get_bill_with_details
(src/unnamed/part_000, lines 24-30). -/
def sqlPrevPeriod (month year : Int) : Int × Int :=
  if month = 1 then (12, year - 1) else (month - 1, year)

/-- The combined RPC get_bill_with_details of src/unnamed/part_000.

When the bill row exists, the single CTE query returns the bill, its
children and the preceding period's readings (COALESCE 0 when no
preceding bill row exists; the readings columns themselves are non-null
in the model, making the per-column COALESCE the identity).

When no bill row exists, the first SELECT ... INTO produces no row, so
v_result stays NULL and the function executes the fallback SELECT at
lines 140-149. That statement reads FROM previous_readings — but the CTE
named previous_readings belongs solely to the preceding statement, so
PL/pgSQL resolves the name against real relations, and no table or view
of that name exists in the schema (database-schema.sql /
simple-schema.sql). The statement therefore raises undefined_table
(SQLSTATE 42P01) at run time, which the function does not catch: the RPC
errors instead of returning the aggregate. -/
def rpc_get_bill_with_details (st : Store) (renterId month year : Int)
    (userId : Nat) : Except String BillWithDetails :=
  let p := sqlPrevPeriod month year
  let billOpt := st.bills.find? (fun b => b.renterId == renterId &&
    b.month == month && b.year == year && b.userId == userId)
  let prevOpt := st.bills.find? (fun b => b.renterId == renterId &&
    b.month == p.1 && b.year == p.2 && b.userId == userId)
  match billOpt with
  | some b =>
    Except.ok
      { bill := some b
        expenses := st.expenses.filter (fun e => e.monthlyBillId == b.id)
        payments := st.payments.filter (fun q => q.monthlyBillId == b.id)
        previous_readings :=
          match prevOpt with
          | some pb => ⟨pb.fields.electricity_final_reading,
              pb.fields.motor_final_reading⟩
          | none => ⟨0, 0⟩ }
  | none => Except.error "42P01: relation previous_readings does not exist"

/-- The decomposed fallback of getBillWithDetails (supabaseService.ts
lines 619-654): bill and previous bill via the service reads, children
only when the bill exists, previous readings from the previous bill or 0.
The JavaScript reads previousBill?.electricity_final_reading || 0, whose
|| only matters for the falsy reading 0, where it also yields 0. -/
def getBillWithDetailsFallback (st : Store) (userId : Nat)
    (renterId month year : Int) : BillWithDetails :=
  let bill := getMonthlyBill st userId renterId month year
  let previousBill := getPreviousMonthBill st userId renterId month year
  let prevReadings : PreviousReadings :=
    ⟨(previousBill.map (fun b => b.fields.electricity_final_reading)).getD 0,
     (previousBill.map (fun b => b.fields.motor_final_reading)).getD 0⟩
  match bill with
  | none => ⟨none, [], [], prevReadings⟩
  | some b => ⟨some b, getAdditionalExpenses st b.id, getBillPayments st b.id,
      prevReadings⟩

/-- getBillWithDetails (lines 575-665): try the RPC; on any RPC error fall
back to the decomposed parallel queries. The retry and timeout wrappers
around the attempt are modelled separately (RetryableQuery.execute and
queryWithTimeout); for a resolved attempt they pass the result through
unchanged. The fallback path never throws (each service read catches its
own errors), so the attempt resolves with an aggregate. -/
def getBillWithDetails (st : Store) (userId : Nat) (renterId month year : Int) :
    Except String BillWithDetails :=
  match rpc_get_bill_with_details st renterId month year userId with
  | Except.ok d => Except.ok d
  | Except.error _ =>
    Except.ok (getBillWithDetailsFallback st userId renterId month year)

/-- getMonthlyBill yields null whenever the renter row is missing or owned
by another user: the 'Renter not found or access denied' throw is caught
inside the function. -/
theorem getMonthlyBill_none_of_no_renter (st : Store) (userId : Nat)
    (renterId month year : Int)
    (hR : ∀ r ∈ st.renters, ¬(r.id = renterId ∧ r.userId = userId)) :
    getMonthlyBill st userId renterId month year = none := by
  unfold getMonthlyBill
  have hany : st.renters.any (fun r => r.id == renterId && r.userId == userId)
      = false := by
    rw [List.any_eq_false]
    intro r hr
    have hne := hR r hr
    simp only [Bool.and_eq_true, beq_iff_eq]
    intro hcontra
    exact hne ⟨hcontra.1, hcontra.2⟩
  simp [hany]

/-- Counterexample to claim C2 as stated: requesting renter 5, which does
not exist in a store whose only renter is 1, does not fail with a
NotFound/AccessDenied error — getBillWithDetails resolves successfully
with the empty aggregate. -/
theorem getBillWithDetails_missing_tenant_cex :
    getBillWithDetails ⟨[⟨1, 10⟩], [], [], [], 0⟩ 10 5 3 2025 =
      Except.ok ⟨none, [], [], ⟨0, 0⟩⟩ := by
  rfl

/-- Amended claim C2: for a tenant that does not exist or does not belong
to the requesting user (no renters row and no bill rows for the pair),
getBillWithDetails does not fail: the combined RPC errors on the missing
bill row, the fallback's getMonthlyBill swallows its own access-denied
error and returns null, and the operation resolves with the empty
aggregate (bill absent, no children, zero readings). -/
theorem getBillWithDetails_empty_on_missing_tenant (st : Store) (userId : Nat)
    (renterId month year : Int)
    (hR : ∀ r ∈ st.renters, ¬(r.id = renterId ∧ r.userId = userId))
    (hB : ∀ b ∈ st.bills, ¬(b.renterId = renterId ∧ b.userId = userId)) :
    getBillWithDetails st userId renterId month year =
      Except.ok ⟨none, [], [], ⟨0, 0⟩⟩ := by
  have hfind : ∀ (m y : Int), st.bills.find? (fun b => b.renterId == renterId &&
      b.month == m && b.year == y && b.userId == userId) = none := by
    intro m y
    rw [List.find?_eq_none]
    intro b hb
    have hne := hB b hb
    simp only [Bool.and_eq_true, beq_iff_eq]
    intro hcontra
    exact hne ⟨hcontra.1.1.1, hcontra.2⟩
  have hrpc : rpc_get_bill_with_details st renterId month year userId =
      Except.error "42P01: relation previous_readings does not exist" := by
    simp only [rpc_get_bill_with_details]
    rw [hfind month year]
  have hgm := getMonthlyBill_none_of_no_renter st userId renterId month year hR
  have hgmp := getMonthlyBill_none_of_no_renter st userId renterId
    (tsPrevPeriod month year).1 (tsPrevPeriod month year).2 hR
  unfold getBillWithDetails
  rw [hrpc]
  simp only [getBillWithDetailsFallback, getPreviousMonthBill, hgm, hgmp]
  rfl

/-- Witness for the amended C2: a concrete store with renter 1 only; the
fetch for renter 5 resolves with the empty aggregate. -/
theorem getBillWithDetails_empty_on_missing_tenant_witness :
    (∀ r ∈ ([⟨1, 10⟩] : List RenterRow), ¬(r.id = 5 ∧ r.userId = 10)) ∧
    getBillWithDetails ⟨[⟨1, 10⟩], [], [⟨0, 9, ⟨"x", 1, 1⟩⟩], [], 1⟩ 10 5 3 2025 =
      Except.ok ⟨none, [], [], ⟨0, 0⟩⟩ :=
  ⟨by decide,
   getBillWithDetails_empty_on_missing_tenant ⟨[⟨1, 10⟩], [], [⟨0, 9, ⟨"x", 1, 1⟩⟩], [], 1⟩
     10 5 3 2025 (by decide) (by decide)⟩

/-- Bill fields of the December 2025 bill used by the year-boundary
scenarios: electricity final reading 600, motor final reading 250. -/
def dec2025Fields : BillFields :=
  ⟨0, false, 0, 600, 0, 0, 0, false, 0, 250, 0, 0, 0, 0, false, 0, false, 0, 0, 0, 0⟩

/-- A store holding renter 7 (user 10) and its December 2025 bill with
final readings 600 and 250, and no January 2026 bill. -/
def yearBoundaryStore : Store :=
  ⟨[⟨7, 10⟩], [⟨1, 10, 7, 12, 2025, dec2025Fields⟩], [], [], 2⟩

/-- Claim C5 (code bug): fetching (renter 7, month 1, year 2026) when only
the December 2025 bill exists makes the combined RPC raise undefined_table
instead of returning the aggregate with carried-forward readings — the
fallback SELECT of part_000 references the CTE previous_readings outside
the statement that defines it. The decomposed fallback path does return
the specified aggregate for the same input. -/
theorem rpc_no_bill_fallback_bug :
    rpc_get_bill_with_details yearBoundaryStore 7 1 2026 10 =
      Except.error "42P01: relation previous_readings does not exist" ∧
    getBillWithDetailsFallback yearBoundaryStore 10 7 1 2026 =
      ⟨none, [], [], ⟨600, 250⟩⟩ := by
  constructor
  · rfl
  · rfl

/-- Claim C6: both the service's getPreviousMonthBill and the RPC compute
the preceding period as (12, Y - 1) for month 1 and (m - 1, Y) otherwise;
in particular the year-boundary fetch of (7, 1, 2026) against only a
December 2025 bill with final readings 600 and 250 returns exactly those
as previousReadings. -/
theorem previous_period_rollover (m y : Int) (h1 : 1 ≤ m) (h2 : m ≤ 12) :
    (m = 1 → tsPrevPeriod m y = (12, y - 1) ∧ sqlPrevPeriod m y = (12, y - 1)) ∧
    (1 < m → tsPrevPeriod m y = (m - 1, y) ∧ sqlPrevPeriod m y = (m - 1, y)) ∧
    getBillWithDetails yearBoundaryStore 10 7 1 2026 =
      Except.ok ⟨none, [], [], ⟨600, 250⟩⟩ := by
  refine ⟨?_, ?_, rfl⟩
  · intro hm
    subst hm
    constructor
    · unfold tsPrevPeriod
      norm_num
    · unfold sqlPrevPeriod
      norm_num
  · intro hm
    have hne : m - 1 ≠ 0 := by omega
    have hne2 : m ≠ 1 := by omega
    constructor
    · unfold tsPrevPeriod
      simp [hne]
    · unfold sqlPrevPeriod
      simp [hne2]

/-- Witness for C6 at month 1, year 2026. -/
theorem previous_period_rollover_witness :
    ((1 : Int) ≤ 1 ∧ (1 : Int) ≤ 12) ∧
    tsPrevPeriod 1 2026 = (12, 2026 - 1) ∧
    sqlPrevPeriod 1 2026 = (12, 2026 - 1) ∧
    getBillWithDetails yearBoundaryStore 10 7 1 2026 =
      Except.ok ⟨none, [], [], ⟨600, 250⟩⟩ := by
  have h := previous_period_rollover 1 2026 (by decide) (by decide)
  exact ⟨by decide, (h.1 rfl).1, (h.1 rfl).2, h.2.2⟩

end RentSync
